import Mathlib

/-!
Verification of the lazy PDF viewer's document adapter and zoom logic.

The definitions below are a shallow embedding of the `LazyPDFDocument`
class and the `calculateNextZoomScale` function of the repository
(`src/unnamed/part_002`).  JavaScript `Map` and `Set` objects are
modelled as insertion-ordered association lists with the exact
`set`/`delete`/`add` semantics of the ECMAScript collections; page
numbers are `Int` (so that out-of-range indices, including negative
ones, behave like JavaScript array indexing); numeric zoom scales are
`Rat`.

Two semantic layers are given:

* a sequential big-step semantics (one adapter method running to
  completion, as when a single caller awaits each call), used for the
  functional-correctness claims; and
* a small-step interleaving semantics (`bstep`/`runB`) in which every
  `await` of the source is a suspension point and a scheduler picks
  which pending task advances, used for the concurrency claims.

Both layers operate on the same record of adapter fields and share the
destination-scan logic, so they agree on the data model.
-/

namespace LazyPDF

/-- A PDF object reference, the `(num, gen)` pair of `RefProxy`. -/
structure RefProxy where
  num : Int
  gen : Int
deriving DecidableEq, Repr

/-- The canonical reference key.  The source builds the string
`"num:gen"`; since that encoding is injective on integer pairs we model
the key as the pair itself. -/
abbrev RefKey := Int × Int

/-- `refKey` from the source: `null`/`undefined` give `null`, otherwise
the canonical key of the `(num, gen)` pair. -/
def refKey : Option RefProxy → Option RefKey
  | none => none
  | some r => some (r.num, r.gen)

/-- One element of a destination array: either an object reference or a
non-reference (primitive) entry, for which `refKey` yields `null`. -/
inductive DestElem where
  | ref (r : RefProxy)
  | prim
deriving DecidableEq, Repr

/-- A raw named-destination value (`unknown` in the source): an array of
elements, or a non-array value (for which the scan uses `[]`). -/
inductive DestVal where
  | arr (l : List DestElem)
  | nonArr
deriving DecidableEq, Repr

/-- Key of `destArray[0]` as computed by `ensureDestinationsForPage`:
`destArray.length > 0 ? refKey(destArray[0] as RefProxy) : null`. -/
def destFirstKey : DestVal → Option RefKey
  | .arr (DestElem.ref r :: _) => some (r.num, r.gen)
  | .arr (DestElem.prim :: _) => none
  | .arr [] => none
  | .nonArr => none

/-- A cached named destination, `{ dest, pageNumber }`. -/
structure NamedDestination where
  dest : DestVal
  pageNumber : Int
deriving DecidableEq, Repr

/-- A page proxy as far as the adapter observes it: the resolved
`page.ref ?? page._pageInfo?.ref ?? null` chain. -/
structure Page where
  ref : Option RefProxy
deriving DecidableEq, Repr

/-- A loaded single-page document: its page-1 proxy, the result of
`getDestinations()` (`none` models a `null` record), and whether
`getDestinations()` rejects. -/
structure PageDoc where
  page1 : Page
  dests : Option (List (String × DestVal))
  destsFail : Bool
deriving DecidableEq, Repr

/-- A manifest page entry `{ n, w, h, pdfUrl }`. -/
structure ManifestPage where
  n : Int
  w : Int
  h : Int
  pdfUrl : String
deriving DecidableEq, Repr

/-- The manifest. -/
structure Manifest where
  docId : String
  filename : String
  pageCount : Int
  createdAt : Option String
  pages : List ManifestPage
deriving DecidableEq, Repr

/-- The network/engine environment: fetching and parsing a page URL
either yields a single-page document or fails (`none`). -/
structure World where
  fetch : String → Option PageDoc

/-- Errors the adapter can raise. -/
inductive LoadErr where
  | pageNotFound (n : Int)
  | loadFailed
deriving DecidableEq, Repr

/-- The events a run emits: starting a page fetch, entering the
destination-scan body of a page, completing that scan, removing the
in-flight load entry, and releasing a cached page document. -/
inductive Event where
  | load (n : Int) (url : String)
  | scan (n : Int)
  | scanDone (n : Int)
  | clearLoading (n : Int)
  | release (d : PageDoc)
deriving DecidableEq, Repr

/-- JavaScript `Map.prototype.get`. -/
def mapLookup {κ α : Type} [DecidableEq κ] : List (κ × α) → κ → Option α
  | [], _ => none
  | (k0, v0) :: rest, k => if k0 = k then some v0 else mapLookup rest k

/-- JavaScript `Map.prototype.set`: replace in place, else append. -/
def mapSet {κ α : Type} [DecidableEq κ] : List (κ × α) → κ → α → List (κ × α)
  | [], k, v => [(k, v)]
  | (k0, v0) :: rest, k, v =>
    if k0 = k then (k, v) :: rest else (k0, v0) :: mapSet rest k v

/-- JavaScript `Map.prototype.delete`. -/
def mapDelete {κ α : Type} [DecidableEq κ] : List (κ × α) → κ → List (κ × α)
  | [], _ => []
  | (k0, v0) :: rest, k => if k0 = k then rest else (k0, v0) :: mapDelete rest k

/-- JavaScript `Set.prototype.add`. -/
def setAdd (l : List Int) (x : Int) : List Int :=
  if l.contains x then l else l ++ [x]

/-- The mutable fields of `LazyPDFDocument`.  The type of the
in-flight table's entries is a parameter `π`: the sequential semantics
stores the settled outcome of the load promise, the small-step
semantics stores a promise identifier. -/
structure DocState (π : Type) where
  pageDocCache : List (Int × PageDoc)
  pageDocLoading : List (Int × π)
  pageProxyCache : List (Int × Page)
  refToPageMap : List (RefKey × Int)
  namedDestinations : List (String × NamedDestination)
  scannedDestPages : List Int
  optionalContentConfigCache : List String
deriving DecidableEq, Repr

/-- The state of a freshly constructed adapter. -/
def emptyState (π : Type) : DocState π :=
  ⟨[], [], [], [], [], [], []⟩

/-- The destination-recording loop of `ensureDestinationsForPage`:
for each `(name, dest)` entry, if the name is not yet recorded, map the
destination's first target reference (if any) to `p` and record the
entry under `p`; already-recorded names are left untouched. -/
def applyDests {π : Type} (p : Int) : List (String × DestVal) → DocState π → DocState π
  | [], s => s
  | (name, dv) :: rest, s =>
    if (mapLookup s.namedDestinations name).isSome then
      applyDests p rest s
    else
      let s1 :=
        match destFirstKey dv with
        | some k => { s with refToPageMap := mapSet s.refToPageMap k p }
        | none => s
      applyDests p rest
        { s1 with namedDestinations := mapSet s1.namedDestinations name ⟨dv, p⟩ }

/-- The `try { getDestinations() ... } catch` body of
`ensureDestinationsForPage`: a rejecting `getDestinations` is swallowed,
a `null` record records nothing, otherwise the entries are folded in. -/
def scanCore {π : Type} (p : Int) (d : PageDoc) (s : DocState π) : DocState π :=
  if d.destsFail then s
  else
    match d.dests with
    | none => s
    | some l => applyDests p l s

/-- `cleanup()`: release every cached page document (emitted as
`release` events) and clear the page-proxy, page-document, reference,
destination and scanned-pages containers.  The in-flight load table and
the optional-content config cache are not touched by the source. -/
def cleanup {π : Type} (s : DocState π) : DocState π × List Event :=
  ({ s with
      pageProxyCache := []
      pageDocCache := []
      refToPageMap := []
      namedDestinations := []
      scannedDestPages := [] },
   s.pageDocCache.map (fun kv => Event.release kv.2))

/-- `destroy()` just delegates to `cleanup()`. -/
def destroy {π : Type} (s : DocState π) : DocState π × List Event :=
  cleanup s

/-- `getOptionalContentConfig`: the static config promise is cached per
rendering intent (defaulting to `"display"`); we track the cached
intents. -/
def getOptionalContentConfig {π : Type} (intent? : Option String) (s : DocState π) :
    DocState π :=
  let intent := intent?.getD "display"
  if s.optionalContentConfigCache.contains intent then s
  else { s with optionalContentConfigCache := s.optionalContentConfigCache ++ [intent] }

/-- State type of the sequential semantics: an in-flight entry holds the
settled outcome of the load promise (a success entry is deleted before
the promise resolves, so between sequential calls only failed loads
remain in the table, and awaiting such an entry re-raises its error). -/
abbrev AState := DocState (Except LoadErr PageDoc)

/-- Outcome of one sequential adapter call: the resolved or rejected
value, the post-state, and the emitted events in order. -/
structure SeqOut (α : Type) where
  res : Except LoadErr α
  st : AState
  ev : List Event
deriving Repr

/-- `ensureDestinationsForPage(pageNumber, pdfUrl, doc)` as invoked by
`loadDocumentForPage` with the just-loaded document: skip if already
scanned, else mark scanned and run the scan body. -/
def ensureWithDoc (p : Int) (d : PageDoc) (s : AState) : AState × List Event :=
  if s.scannedDestPages.contains p then (s, [])
  else
    (scanCore p d { s with scannedDestPages := setAdd s.scannedDestPages p },
     [Event.scan p])

/-- `loadDocumentForPage` run to completion by a single caller:
document-cache hit; else in-flight (settled) entry re-awaited; else a
fresh fetch.  On fetch success the document is cached, the destination
scan runs, and only then is the in-flight entry deleted (the `finally`
block); on fetch failure the rejected promise stays in the table. -/
def loadDocumentForPage (w : World) (p : Int) (u : String) (s : AState) :
    SeqOut PageDoc :=
  match mapLookup s.pageDocCache p with
  | some d => ⟨.ok d, s, []⟩
  | none =>
    match mapLookup s.pageDocLoading p with
    | some settled => ⟨settled, s, []⟩
    | none =>
      match w.fetch u with
      | none =>
        ⟨.error .loadFailed,
         { s with pageDocLoading := mapSet s.pageDocLoading p (.error .loadFailed) },
         [Event.load p u]⟩
      | some d =>
        let s1 : AState := { s with pageDocCache := mapSet s.pageDocCache p d }
        let pr := ensureWithDoc p d s1
        ⟨.ok d,
         { pr.1 with pageDocLoading := mapDelete pr.1.pageDocLoading p },
         Event.load p u :: pr.2⟩

/-- `ensureDestinationsForPage(pageNumber, pdfUrl)` as invoked by
`getDestination` (no document supplied): skip if scanned; else mark
scanned *before* loading, load the page document (a load failure
propagates out of the method), and run the scan body.  The nested
`ensureWithDoc` inside the load is a no-op because the page was just
marked scanned. -/
def ensureDestinationsForPage (w : World) (p : Int) (u : String) (s : AState) :
    SeqOut Unit :=
  if s.scannedDestPages.contains p then ⟨.ok (), s, []⟩
  else
    let s1 : AState := { s with scannedDestPages := setAdd s.scannedDestPages p }
    match loadDocumentForPage w p u s1 with
    | ⟨.error e, s2, ev⟩ => ⟨.error e, s2, ev⟩
    | ⟨.ok d, s2, ev⟩ => ⟨.ok (), scanCore p d s2, ev ++ [Event.scan p]⟩

/-- The page-scanning loop of `getDestination`. -/
def getDestinationLoop (w : World) (name : String) :
    List ManifestPage → AState → SeqOut (Option DestVal)
  | [], s => ⟨.ok none, s, []⟩
  | e :: rest, s =>
    match ensureDestinationsForPage w e.n e.pdfUrl s with
    | ⟨.error err, s2, ev⟩ => ⟨.error err, s2, ev⟩
    | ⟨.ok _, s2, ev⟩ =>
      match mapLookup s2.namedDestinations name with
      | some nd => ⟨.ok (some nd.dest), s2, ev⟩
      | none =>
        let o := getDestinationLoop w name rest s2
        ⟨o.res, o.st, ev ++ o.ev⟩

/-- `getDestination(name)`: cached entry, else scan pages in manifest
order until found or exhausted, resolving `null` (`none`) at the end. -/
def getDestination (w : World) (m : Manifest) (name : String) (s : AState) :
    SeqOut (Option DestVal) :=
  match mapLookup s.namedDestinations name with
  | some nd => ⟨.ok (some nd.dest), s, []⟩
  | none => getDestinationLoop w name m.pages s

/-- The page-scanning loop of `getPageIndex`. -/
def getPageIndexLoop (w : World) (key : RefKey) :
    List ManifestPage → AState → SeqOut Int
  | [], s => ⟨.ok 0, s, []⟩
  | e :: rest, s =>
    match loadDocumentForPage w e.n e.pdfUrl s with
    | ⟨.error err, s2, ev⟩ => ⟨.error err, s2, ev⟩
    | ⟨.ok _, s2, ev⟩ =>
      match mapLookup s2.refToPageMap key with
      | some m => ⟨.ok (m - 1), s2, ev⟩
      | none =>
        let o := getPageIndexLoop w key rest s2
        ⟨o.res, o.st, ev ++ o.ev⟩

/-- `getPageIndex(ref)`: `0` for a null key; the cached page number
minus one on an index hit; else load pages in manifest order until the
key appears in the reference index, defaulting to `0`. -/
def getPageIndex (w : World) (m : Manifest) (ref : Option RefProxy) (s : AState) :
    SeqOut Int :=
  match refKey ref with
  | none => ⟨.ok 0, s, []⟩
  | some key =>
    match mapLookup s.refToPageMap key with
    | some cached => ⟨.ok (cached - 1), s, []⟩
    | none => getPageIndexLoop w key m.pages s

/-- `cachedPageNumber(ref)`: reference-index-only lookup, `null` on a
null key or a miss. -/
def cachedPageNumber (s : AState) (ref : Option RefProxy) : Option Int :=
  match refKey ref with
  | none => none
  | some k => mapLookup s.refToPageMap k

/-- JavaScript array indexing `pages[i]` with an `Int` index:
out-of-range (including negative) indices give `undefined`. -/
def listGetInt {α : Type} (l : List α) (i : Int) : Option α :=
  if 0 ≤ i then l[i.toNat]? else none

/-- `getPage(pageNumber)` run to completion by a single caller:
proxy-cache hit; `Page pageNumber not found in manifest` when the
manifest has no entry; else load the page document, take its page 1,
record the page's own reference in the reference index, cache the proxy
and resolve with it. -/
def getPage (w : World) (m : Manifest) (n : Int) (s : AState) : SeqOut Page :=
  match mapLookup s.pageProxyCache n with
  | some pg => ⟨.ok pg, s, []⟩
  | none =>
    match listGetInt m.pages (n - 1) with
    | none => ⟨.error (.pageNotFound n), s, []⟩
    | some entry =>
      match loadDocumentForPage w n entry.pdfUrl s with
      | ⟨.error e, s2, ev⟩ => ⟨.error e, s2, ev⟩
      | ⟨.ok d, s2, ev⟩ =>
        let page := d.page1
        let s3 : AState :=
          match refKey page.ref with
          | some k => { s2 with refToPageMap := mapSet s2.refToPageMap k n }
          | none => s2
        ⟨.ok page, { s3 with pageProxyCache := mapSet s3.pageProxyCache n page }, ev⟩

/-! ### Zoom stepping -/

/-- `MAX_SCALE = 5` (500%). -/
def MAX_SCALE : ℚ := 5

/-- `MIN_SCALE = 0.1` (10%). -/
def MIN_SCALE : ℚ := 1 / 10

/-- `Math.round` on a rational: round half away from negative infinity,
exactly ECMAScript's behaviour (`Math.round(9.5) = 10`,
`Math.round(-2.5) = -2`), which coincides with Mathlib's `round`. -/
def jsRound (q : ℚ) : Int := round q

/-- `calculateNextZoomScale(currentScale, direction)`: convert to a
percentage, round to the nearest 10, step by `direction * 10`, convert
back, clamp to `[MIN_SCALE, MAX_SCALE]`. -/
def calculateNextZoomScale (currentScale : ℚ) (direction : Int) : ℚ :=
  let currentPercent := currentScale * 100
  let roundedPercent : Int := jsRound (currentPercent / 10) * 10
  let nextPercent : Int := roundedPercent + direction * 10
  min MAX_SCALE (max MIN_SCALE ((nextPercent : ℚ) / 100))

/-- Modelled from the spec: "convert scale to percentage, round to
nearest multiple of ten, step ±10 points, convert back, clamp to
bounds".  `10 * round (p / 10)` is the multiple of ten nearest to `p`
(ties toward the larger multiple). -/
def specZoomStep (scale : ℚ) (direction : Int) : ℚ :=
  let percent := scale * 100
  let snapped : Int := 10 * round (percent / 10)
  let stepped : Int := snapped + 10 * direction
  min MAX_SCALE (max MIN_SCALE ((stepped : ℚ) / 100))

/-- Repeated `zoomIn`/`zoomOut` presses as in the viewer controller:
each press feeds the current scale through `calculateNextZoomScale`. -/
def applyZoomSteps (scale : ℚ) : List Int → ℚ
  | [] => scale
  | d :: rest => applyZoomSteps (calculateNextZoomScale scale d) rest

/-! ### Small-step interleaving semantics

Every `await` of the source is a suspension point.  A `getPage(n)` call
is a task; the async IIFE inside `loadDocumentForPage` (the load
operation that fetches, caches, scans destinations, deletes the
in-flight entry and settles the shared promise) is its own task,
spawned by whichever `getPage` task found neither a cached document nor
an in-flight entry.  Promises are identifiers; a settled promise is an
entry in the promise table.  The scheduler (a list of actions) decides
which task advances and when `destroy()` is invoked; a task blocked on
an unsettled promise does not advance. -/

deriving instance DecidableEq for Except

/-- In-flight entries of the small-step semantics are promise ids. -/
abbrev BState := DocState Nat

/-- One cooperative task, identified by its continuation. -/
inductive BTask where
  | pgStart (n : Int)
  | pgAwaitDoc (n : Int) (p : Nat)
  | pgAwaitPage1 (n : Int) (d : PageDoc)
  | pgDone (n : Int) (res : Except LoadErr Page)
  | ownAwaitFetch (n : Int) (u : String) (p : Nat)
  | ownAwaitDests (n : Int) (d : PageDoc) (p : Nat)
  | ownFinish (n : Int) (d : PageDoc) (p : Nat)
  | ownDead
deriving DecidableEq, Repr

/-- A configuration: adapter state, tasks, table of settled promises,
fresh-promise counter and the event log. -/
structure BConfig where
  st : BState
  tasks : List BTask
  promises : List (Nat × Except LoadErr PageDoc)
  nextP : Nat
  events : List Event
deriving DecidableEq, Repr

/-- A scheduler action: advance task `i`, or call `destroy()`. -/
inductive BAct where
  | task (i : Nat)
  | destroy
deriving DecidableEq, Repr

/-- Advance task `i` by one atomic segment (the code between two
`await`s of the source). -/
def runTask (w : World) (m : Manifest) (cfg : BConfig) (i : Nat) : BConfig :=
  match cfg.tasks[i]? with
  | none => cfg
  | some t =>
    match t with
    | .pgStart n =>
      match mapLookup cfg.st.pageProxyCache n with
      | some pg => { cfg with tasks := cfg.tasks.set i (.pgDone n (.ok pg)) }
      | none =>
        match listGetInt m.pages (n - 1) with
        | none =>
          { cfg with tasks := cfg.tasks.set i (.pgDone n (.error (.pageNotFound n))) }
        | some entry =>
          match mapLookup cfg.st.pageDocCache n with
          | some d => { cfg with tasks := cfg.tasks.set i (.pgAwaitPage1 n d) }
          | none =>
            match mapLookup cfg.st.pageDocLoading n with
            | some p => { cfg with tasks := cfg.tasks.set i (.pgAwaitDoc n p) }
            | none =>
              let p := cfg.nextP
              { st := { cfg.st with
                  pageDocLoading := mapSet cfg.st.pageDocLoading n p }
                tasks := (cfg.tasks.set i (.pgAwaitDoc n p)) ++
                  [.ownAwaitFetch n entry.pdfUrl p]
                promises := cfg.promises
                nextP := p + 1
                events := cfg.events ++ [Event.load n entry.pdfUrl] }
    | .ownAwaitFetch n u p =>
      match w.fetch u with
      | none =>
        { cfg with
            tasks := cfg.tasks.set i .ownDead
            promises := mapSet cfg.promises p (.error .loadFailed) }
      | some d =>
        let st1 : BState := { cfg.st with pageDocCache := mapSet cfg.st.pageDocCache n d }
        if st1.scannedDestPages.contains n then
          { cfg with
              st := st1
              tasks := cfg.tasks.set i (.ownFinish n d p)
              events := cfg.events ++ [Event.scanDone n] }
        else
          { cfg with
              st := { st1 with scannedDestPages := setAdd st1.scannedDestPages n }
              tasks := cfg.tasks.set i (.ownAwaitDests n d p)
              events := cfg.events ++ [Event.scan n] }
    | .ownAwaitDests n d p =>
      { cfg with
          st := scanCore n d cfg.st
          tasks := cfg.tasks.set i (.ownFinish n d p)
          events := cfg.events ++ [Event.scanDone n] }
    | .ownFinish n d p =>
      { cfg with
          st := { cfg.st with pageDocLoading := mapDelete cfg.st.pageDocLoading n }
          tasks := cfg.tasks.set i .ownDead
          promises := mapSet cfg.promises p (.ok d)
          events := cfg.events ++ [Event.clearLoading n] }
    | .pgAwaitDoc n p =>
      match mapLookup cfg.promises p with
      | none => cfg
      | some (.error e) => { cfg with tasks := cfg.tasks.set i (.pgDone n (.error e)) }
      | some (.ok d) => { cfg with tasks := cfg.tasks.set i (.pgAwaitPage1 n d) }
    | .pgAwaitPage1 n d =>
      let page := d.page1
      let st1 : BState :=
        match refKey page.ref with
        | some k => { cfg.st with refToPageMap := mapSet cfg.st.refToPageMap k n }
        | none => cfg.st
      { cfg with
          st := { st1 with pageProxyCache := mapSet st1.pageProxyCache n page }
          tasks := cfg.tasks.set i (.pgDone n (.ok page)) }
    | .pgDone _ _ => cfg
    | .ownDead => cfg

/-- One scheduler step. -/
def bstep (w : World) (m : Manifest) (cfg : BConfig) (a : BAct) : BConfig :=
  match a with
  | .task i => runTask w m cfg i
  | .destroy =>
    let pr := destroy cfg.st
    { cfg with st := pr.1, events := cfg.events ++ pr.2 }

/-- Run a whole schedule. -/
def runB (w : World) (m : Manifest) (cfg : BConfig) (acts : List BAct) : BConfig :=
  acts.foldl (bstep w m) cfg

/-- Initial configuration: a fresh adapter and one `getPage(n)` task
per requested page number. -/
def initB (reqs : List Int) : BConfig :=
  ⟨emptyState Nat, reqs.map BTask.pgStart, [], 0, []⟩

/-- Number of fetches of page `n`'s file in an event log. -/
def loadCount (n : Int) (evs : List Event) : Nat :=
  evs.countP (fun e =>
    match e with
    | .load k _ => decide (k = n)
    | _ => false)

/-- Checks that every `clearLoading n` event is preceded by a
`scanDone n` event: the in-flight entry for a page is removed only
after that page's destination-scan side effect has completed. -/
def chkSeen (seen : List Int) : List Event → Bool
  | [] => true
  | Event.scanDone n :: rest => chkSeen (n :: seen) rest
  | Event.clearLoading n :: rest => seen.contains n && chkSeen seen rest
  | _ :: rest => chkSeen seen rest

/-- The pages whose `scanDone` event occurs in a log, accumulated onto
`seen`. -/
def seenAfter (seen : List Int) : List Event → List Int
  | [] => seen
  | Event.scanDone n :: rest => seenAfter (n :: seen) rest
  | _ :: rest => seenAfter seen rest

/-- The first destination value recorded under `name` in a scanned
entry list (`Object.entries` order). -/
def findDest (name : String) : List (String × DestVal) → Option DestVal
  | [] => none
  | (nm, dv) :: rest => if nm = name then some dv else findDest name rest

/-- The destination value a page file defines under `name`, as the scan
would observe it: nothing if `getDestinations()` rejects or returns
`null`, else the first entry under `name`. -/
def docDefines (d : PageDoc) (name : String) : Option DestVal :=
  if d.destsFail then none
  else
    match d.dests with
    | none => none
    | some l => findDest name l

/-- The page file at `u` loads and defines `name`: the destination
value recorded for `name` by a scan of that page, if any. -/
def fetchDefines (w : World) (u : String) (name : String) : Option DestVal :=
  match w.fetch u with
  | none => none
  | some d => docDefines d name

/-- The page file at `u` loads successfully and none of its destination
entries has `k` as its first target reference — scanning it can never
register `k` in the reference index. -/
def fetchAvoidsKey (w : World) (u : String) (k : RefKey) : Prop :=
  match w.fetch u with
  | none => False
  | some d => ∀ x ∈ d.dests.getD [], destFirstKey x.2 ≠ some k

instance (w : World) (u : String) (k : RefKey) : Decidable (fetchAvoidsKey w u k) := by
  unfold fetchAvoidsKey
  cases w.fetch u with
  | none => exact inferInstance
  | some d => exact inferInstance

/-- A schedule that never calls `destroy()`. -/
def noDestroy (acts : List BAct) : Prop :=
  ∀ a ∈ acts, a ≠ BAct.destroy

instance (acts : List BAct) : Decidable (noDestroy acts) := by
  unfold noDestroy; infer_instance

/-- Manifest well-formedness used by some statements: page numbers are
pairwise distinct (the spec declares them unique and contiguous). -/
def pagesNodup (m : Manifest) : Prop :=
  (m.pages.map (fun e => e.n)).Nodup

instance (m : Manifest) : Decidable (pagesNodup m) := by
  unfold pagesNodup; infer_instance

/-! ### Concrete fixtures

Small worlds and manifests used to evaluate the adapter on concrete
inputs (for counterexamples and witnesses). -/

def urlA : String := "/pages/1.pdf"

def urlB : String := "/pages/2.pdf"

def urlC : String := "/pages/3.pdf"

/-- A manifest over the given page entries. -/
def mkManifest (ps : List ManifestPage) : Manifest :=
  ⟨"doc", "doc.pdf", (ps.length : Int), none, ps⟩

def manifestOne : Manifest := mkManifest [⟨1, 612, 792, urlA⟩]

def manifestTwo : Manifest :=
  mkManifest [⟨1, 612, 792, urlA⟩, ⟨2, 612, 792, urlB⟩]

def manifestThree : Manifest :=
  mkManifest [⟨1, 612, 792, urlA⟩, ⟨2, 612, 792, urlB⟩, ⟨3, 612, 792, urlC⟩]

/-- Page files whose page objects carry distinct references `(1,0)` and
`(2,0)` and which define no named destinations. -/
def docOwn1 : PageDoc := ⟨⟨some ⟨1, 0⟩⟩, some [], false⟩

def docOwn2 : PageDoc := ⟨⟨some ⟨2, 0⟩⟩, some [], false⟩

def worldOwn : World :=
  ⟨fun u => if u = urlA then some docOwn1 else if u = urlB then some docOwn2 else none⟩

/-- A destination array targeting the reference `(1,0)`. -/
def destX : DestVal := .arr [.ref ⟨1, 0⟩]

/-- Split page files both use `(1,0)` for their own page object (each
file numbers its objects independently); page 1's file additionally
defines the named destination `"x"` targeting `(1,0)`. -/
def docAlias1 : PageDoc := ⟨⟨some ⟨1, 0⟩⟩, some [("x", destX)], false⟩

def docAlias2 : PageDoc := ⟨⟨some ⟨1, 0⟩⟩, some [], false⟩

def worldAlias : World :=
  ⟨fun u => if u = urlA then some docAlias1 else if u = urlB then some docAlias2 else none⟩

/-- A world in which every page fetch fails. -/
def worldFail : World := ⟨fun _ => none⟩

/-- A page file with no destinations. -/
def docPlain : PageDoc := ⟨⟨some ⟨1, 0⟩⟩, some [], false⟩

/-- Page 3's file, defining the named destination `"sec"`. -/
def docWithSec : PageDoc := ⟨⟨some ⟨1, 0⟩⟩, some [("sec", destX)], false⟩

def worldThree : World :=
  ⟨fun u =>
    if u = urlA then some docPlain
    else if u = urlB then some docPlain
    else if u = urlC then some docWithSec else none⟩

/-- Adapter state after `getPage(2)` on the aliasing world: page 2 is
loaded and its reference `(1,0)` is indexed as page 2. -/
def stateAfterAliasLoad : AState :=
  (getPage worldAlias manifestTwo 2 (emptyState _)).st

/-- Adapter state after additionally resolving the named destination
`"x"`: the scan of page 1 re-indexed the shared reference `(1,0)` as
page 1. -/
def stateAfterAliasDest : AState :=
  (getDestination worldAlias manifestTwo "x" stateAfterAliasLoad).st

/-- Adapter state after `getPage(1)` on the three-page world: only page
1 is loaded and scanned. -/
def stateAfterPage1 : AState :=
  (getPage worldThree manifestThree 1 (emptyState _)).st

/-- Adapter state after scanning page 3 of the three-page world on a
fresh adapter: `"sec"` is recorded for page 3. -/
def stateAfterScan3 : AState :=
  (ensureDestinationsForPage worldThree 3 urlC (emptyState _)).st

/-! ### Association-list and set lemmas -/

theorem mapLookup_set_self {κ α : Type} [DecidableEq κ] (m : List (κ × α)) (k : κ) (v : α) :
    mapLookup (mapSet m k v) k = some v := by
  induction m with
  | nil => simp [mapSet, mapLookup]
  | cons hd tl ih =>
    obtain ⟨k0, v0⟩ := hd
    by_cases h : k0 = k
    · simp [mapSet, h, mapLookup]
    · simp [mapSet, h, mapLookup, ih]

theorem mapLookup_set_ne {κ α : Type} [DecidableEq κ] (m : List (κ × α)) (k k' : κ) (v : α)
    (h : k' ≠ k) : mapLookup (mapSet m k v) k' = mapLookup m k' := by
  have h2 : ¬(k = k') := fun hh => h hh.symm
  induction m with
  | nil => simp [mapSet, mapLookup, h2]
  | cons hd tl ih =>
    obtain ⟨k0, v0⟩ := hd
    by_cases h0 : k0 = k
    · subst h0
      simp [mapSet, mapLookup, h2]
    · by_cases h1 : k0 = k'
      · simp [mapSet, h0, mapLookup, h1, h]
      · simp [mapSet, h0, mapLookup, h1, ih]

theorem mapLookup_delete_ne {κ α : Type} [DecidableEq κ] (m : List (κ × α)) (k k' : κ)
    (h : k' ≠ k) : mapLookup (mapDelete m k) k' = mapLookup m k' := by
  have h2 : ¬(k = k') := fun hh => h hh.symm
  induction m with
  | nil => simp [mapDelete]
  | cons hd tl ih =>
    obtain ⟨k0, v0⟩ := hd
    by_cases h0 : k0 = k
    · subst h0
      simp [mapDelete, mapLookup, h2]
    · by_cases h1 : k0 = k'
      · simp [mapDelete, h0, mapLookup, h1, h]
      · simp [mapDelete, h0, mapLookup, h1, ih]

theorem mapLookup_set_isSome {κ α : Type} [DecidableEq κ] (m : List (κ × α)) (k k' : κ)
    (v : α) (h : (mapLookup m k').isSome) : (mapLookup (mapSet m k v) k').isSome := by
  by_cases hk : k' = k
  · subst hk; simp [mapLookup_set_self]
  · rwa [mapLookup_set_ne m k k' v hk]

theorem setAdd_contains_self (l : List Int) (x : Int) :
    (setAdd l x).contains x = true := by
  unfold setAdd
  split
  · assumption
  · simp [List.elem_iff]

theorem setAdd_contains_of_contains (l : List Int) (x y : Int)
    (h : l.contains y = true) : (setAdd l x).contains y = true := by
  unfold setAdd
  split
  · exact h
  · simp only [List.elem_iff, decide_eq_true_eq] at h ⊢
    exact List.mem_append.2 (Or.inl h)

theorem setAdd_contains_ne (l : List Int) (x y : Int) (h : y ≠ x) :
    (setAdd l x).contains y = l.contains y := by
  unfold setAdd
  split
  · rfl
  · simp [List.elem_iff, h]

/-! ### `applyDests` and `scanCore` lemmas -/

theorem applyDests_pageDocCache {π : Type} (p : Int) (l : List (String × DestVal))
    (s : DocState π) : (applyDests p l s).pageDocCache = s.pageDocCache := by
  induction l generalizing s with
  | nil => rfl
  | cons hd tl ih =>
    obtain ⟨name, dv⟩ := hd
    by_cases h : (mapLookup s.namedDestinations name).isSome
    · simp [applyDests, h, ih]
    · cases hk : destFirstKey dv <;> simp [applyDests, h, hk, ih]

theorem applyDests_pageDocLoading {π : Type} (p : Int) (l : List (String × DestVal))
    (s : DocState π) : (applyDests p l s).pageDocLoading = s.pageDocLoading := by
  induction l generalizing s with
  | nil => rfl
  | cons hd tl ih =>
    obtain ⟨name, dv⟩ := hd
    by_cases h : (mapLookup s.namedDestinations name).isSome
    · simp [applyDests, h, ih]
    · cases hk : destFirstKey dv <;> simp [applyDests, h, hk, ih]

theorem applyDests_pageProxyCache {π : Type} (p : Int) (l : List (String × DestVal))
    (s : DocState π) : (applyDests p l s).pageProxyCache = s.pageProxyCache := by
  induction l generalizing s with
  | nil => rfl
  | cons hd tl ih =>
    obtain ⟨name, dv⟩ := hd
    by_cases h : (mapLookup s.namedDestinations name).isSome
    · simp [applyDests, h, ih]
    · cases hk : destFirstKey dv <;> simp [applyDests, h, hk, ih]

theorem applyDests_scannedDestPages {π : Type} (p : Int) (l : List (String × DestVal))
    (s : DocState π) : (applyDests p l s).scannedDestPages = s.scannedDestPages := by
  induction l generalizing s with
  | nil => rfl
  | cons hd tl ih =>
    obtain ⟨name, dv⟩ := hd
    by_cases h : (mapLookup s.namedDestinations name).isSome
    · simp [applyDests, h, ih]
    · cases hk : destFirstKey dv <;> simp [applyDests, h, hk, ih]

theorem scanCore_pageDocCache {π : Type} (p : Int) (d : PageDoc) (s : DocState π) :
    (scanCore p d s).pageDocCache = s.pageDocCache := by
  unfold scanCore
  by_cases h : d.destsFail
  · simp [h]
  · cases hd : d.dests <;> simp [h, hd, applyDests_pageDocCache]

theorem scanCore_pageDocLoading {π : Type} (p : Int) (d : PageDoc) (s : DocState π) :
    (scanCore p d s).pageDocLoading = s.pageDocLoading := by
  unfold scanCore
  by_cases h : d.destsFail
  · simp [h]
  · cases hd : d.dests <;> simp [h, hd, applyDests_pageDocLoading]

theorem scanCore_pageProxyCache {π : Type} (p : Int) (d : PageDoc) (s : DocState π) :
    (scanCore p d s).pageProxyCache = s.pageProxyCache := by
  unfold scanCore
  by_cases h : d.destsFail
  · simp [h]
  · cases hd : d.dests <;> simp [h, hd, applyDests_pageProxyCache]

theorem scanCore_scannedDestPages {π : Type} (p : Int) (d : PageDoc) (s : DocState π) :
    (scanCore p d s).scannedDestPages = s.scannedDestPages := by
  unfold scanCore
  by_cases h : d.destsFail
  · simp [h]
  · cases hd : d.dests <;> simp [h, hd, applyDests_scannedDestPages]

theorem applyDests_named_mono {π : Type} (p : Int) (l : List (String × DestVal))
    (s : DocState π) (name : String) (e : NamedDestination)
    (h : mapLookup s.namedDestinations name = some e) :
    mapLookup (applyDests p l s).namedDestinations name = some e := by
  induction l generalizing s with
  | nil => exact h
  | cons hd tl ih =>
    obtain ⟨nm, dv⟩ := hd
    by_cases hnm : (mapLookup s.namedDestinations nm).isSome
    · simp only [applyDests, hnm, if_pos]
      exact ih s h
    · have hne : name ≠ nm := by
        intro hh
        subst hh
        rw [h] at hnm
        simp at hnm
      simp only [applyDests, hnm, if_neg, Bool.false_eq_true, not_false_iff]
      cases hk : destFirstKey dv
      · apply ih
        simpa [mapLookup_set_ne _ _ _ _ hne] using h
      · apply ih
        simpa [mapLookup_set_ne _ _ _ _ hne] using h

theorem applyDests_named_first {π : Type} (p : Int) (l : List (String × DestVal))
    (s : DocState π) (name : String) (dv : DestVal)
    (habs : mapLookup s.namedDestinations name = none)
    (hfind : findDest name l = some dv) :
    mapLookup (applyDests p l s).namedDestinations name = some ⟨dv, p⟩ := by
  induction l generalizing s with
  | nil => simp [findDest] at hfind
  | cons hd tl ih =>
    obtain ⟨nm, dv0⟩ := hd
    by_cases heq : nm = name
    · subst heq
      simp only [findDest, if_pos] at hfind
      cases hfind
      simp only [applyDests, habs, Option.isSome_none, Bool.false_eq_true, if_neg,
        not_false_iff]
      cases hk : destFirstKey dv <;>
        exact applyDests_named_mono p tl _ nm _ (by simp [mapLookup_set_self])
    · have hfind2 : findDest name tl = some dv := by
        simpa [findDest, heq] using hfind
      by_cases hnm : (mapLookup s.namedDestinations nm).isSome
      · simp only [applyDests, hnm, if_pos]
        exact ih _ habs hfind2
      · simp only [applyDests, hnm, Bool.false_eq_true, if_neg, not_false_iff]
        have hne : name ≠ nm := fun hh => heq hh.symm
        cases hk : destFirstKey dv0 <;>
          exact ih _ (by simpa [mapLookup_set_ne _ _ _ _ hne] using habs) hfind2

theorem applyDests_named_absent {π : Type} (p : Int) (l : List (String × DestVal))
    (s : DocState π) (name : String)
    (habs : mapLookup s.namedDestinations name = none)
    (hfind : findDest name l = none) :
    mapLookup (applyDests p l s).namedDestinations name = none := by
  induction l generalizing s with
  | nil => exact habs
  | cons hd tl ih =>
    obtain ⟨nm, dv0⟩ := hd
    have heq : nm ≠ name := by
      intro hh
      simp [findDest, hh] at hfind
    have hfind2 : findDest name tl = none := by
      simpa [findDest, heq] using hfind
    by_cases hnm : (mapLookup s.namedDestinations nm).isSome
    · simp only [applyDests, hnm, if_pos]
      exact ih _ habs hfind2
    · simp only [applyDests, hnm, Bool.false_eq_true, if_neg, not_false_iff]
      have hne : name ≠ nm := fun hh => heq hh.symm
      cases hk : destFirstKey dv0 <;>
        exact ih _ (by simpa [mapLookup_set_ne _ _ _ _ hne] using habs) hfind2

theorem applyDests_map_stable {π : Type} (p : Int) (l : List (String × DestVal))
    (s : DocState π) (k : RefKey)
    (h : mapLookup s.refToPageMap k = some p) :
    mapLookup (applyDests p l s).refToPageMap k = some p := by
  induction l generalizing s with
  | nil => exact h
  | cons hd tl ih =>
    obtain ⟨nm, dv0⟩ := hd
    by_cases hnm : (mapLookup s.namedDestinations nm).isSome
    · simp only [applyDests, hnm, if_pos]
      exact ih s h
    · simp only [applyDests, hnm, Bool.false_eq_true, if_neg, not_false_iff]
      cases hk : destFirstKey dv0 with
      | none => exact ih _ h
      | some k0 =>
        by_cases hkk : k = k0
        · subst hkk
          exact ih _ (by simp [mapLookup_set_self])
        · exact ih _ (by simpa [mapLookup_set_ne _ _ _ _ hkk] using h)

theorem applyDests_map_first {π : Type} (p : Int) (l : List (String × DestVal))
    (s : DocState π) (name : String) (dv : DestVal) (k : RefKey)
    (habs : mapLookup s.namedDestinations name = none)
    (hfind : findDest name l = some dv)
    (hk : destFirstKey dv = some k) :
    mapLookup (applyDests p l s).refToPageMap k = some p := by
  induction l generalizing s with
  | nil => simp [findDest] at hfind
  | cons hd tl ih =>
    obtain ⟨nm, dv0⟩ := hd
    by_cases heq : nm = name
    · subst heq
      simp only [findDest, if_pos] at hfind
      cases hfind
      simp only [applyDests, habs, Option.isSome_none, Bool.false_eq_true, if_neg,
        not_false_iff]
      rw [hk]
      exact applyDests_map_stable p tl _ k (by simp [mapLookup_set_self])
    · have hfind2 : findDest name tl = some dv := by
        simpa [findDest, heq] using hfind
      by_cases hnm : (mapLookup s.namedDestinations nm).isSome
      · simp only [applyDests, hnm, if_pos]
        exact ih _ habs hfind2
      · simp only [applyDests, hnm, Bool.false_eq_true, if_neg, not_false_iff]
        have hne : name ≠ nm := fun hh => heq hh.symm
        cases hk0 : destFirstKey dv0 <;>
          exact ih _ (by simpa [mapLookup_set_ne _ _ _ _ hne] using habs) hfind2

theorem applyDests_map_nokey {π : Type} (p : Int) (l : List (String × DestVal))
    (s : DocState π) (k : RefKey)
    (h : ∀ nm dv0, (nm, dv0) ∈ l → destFirstKey dv0 ≠ some k) :
    mapLookup (applyDests p l s).refToPageMap k = mapLookup s.refToPageMap k := by
  induction l generalizing s with
  | nil => rfl
  | cons hd tl ih =>
    obtain ⟨nm, dv0⟩ := hd
    have htl : ∀ nm1 dv1, (nm1, dv1) ∈ tl → destFirstKey dv1 ≠ some k := by
      intro nm1 dv1 hmem
      exact h nm1 dv1 (List.mem_cons_of_mem _ hmem)
    by_cases hnm : (mapLookup s.namedDestinations nm).isSome
    · simp only [applyDests, hnm, if_pos]
      exact ih s htl
    · simp only [applyDests, hnm, Bool.false_eq_true, if_neg, not_false_iff]
      cases hk0 : destFirstKey dv0 with
      | none => exact ih _ htl
      | some k0 =>
        have hne : k ≠ k0 := by
          intro hh
          exact h nm dv0 (List.mem_cons_self _ _) (by rw [hk0, hh])
        rw [ih _ htl]
        simpa using mapLookup_set_ne s.refToPageMap k0 k p hne

theorem scanCore_named_mono {π : Type} (p : Int) (d : PageDoc) (s : DocState π)
    (name : String) (e : NamedDestination)
    (h : mapLookup s.namedDestinations name = some e) :
    mapLookup (scanCore p d s).namedDestinations name = some e := by
  unfold scanCore
  by_cases hf : d.destsFail
  · simpa [hf] using h
  · cases hd : d.dests with
    | none => simpa [hf, hd] using h
    | some l => simpa [hf, hd] using applyDests_named_mono p l s name e h

theorem scanCore_named_defines {π : Type} (p : Int) (d : PageDoc) (s : DocState π)
    (name : String) (dv : DestVal)
    (habs : mapLookup s.namedDestinations name = none)
    (hdef : docDefines d name = some dv) :
    mapLookup (scanCore p d s).namedDestinations name = some ⟨dv, p⟩ := by
  unfold scanCore
  unfold docDefines at hdef
  by_cases hf : d.destsFail
  · simp [hf] at hdef
  · cases hd : d.dests with
    | none => rw [hd] at hdef; simp [hf] at hdef
    | some l =>
      rw [hd] at hdef
      simp only [hf, Bool.false_eq_true, if_neg, not_false_iff] at hdef ⊢
      exact applyDests_named_first p l s name dv habs hdef

theorem scanCore_named_not_defines {π : Type} (p : Int) (d : PageDoc) (s : DocState π)
    (name : String)
    (habs : mapLookup s.namedDestinations name = none)
    (hdef : docDefines d name = none) :
    mapLookup (scanCore p d s).namedDestinations name = none := by
  unfold scanCore
  unfold docDefines at hdef
  by_cases hf : d.destsFail
  · simpa [hf] using habs
  · cases hd : d.dests with
    | none => simpa [hf, hd] using habs
    | some l =>
      rw [hd] at hdef
      simp only [hf, Bool.false_eq_true, if_neg, not_false_iff] at hdef ⊢
      exact applyDests_named_absent p l s name habs hdef

/-! ### Zoom stepping: claims C8 and C9 -/

theorem calcNextZoom_bounds (s : ℚ) (d : Int) :
    MIN_SCALE ≤ calculateNextZoomScale s d ∧ calculateNextZoomScale s d ≤ MAX_SCALE := by
  unfold calculateNextZoomScale MIN_SCALE MAX_SCALE
  constructor
  · simp only [le_min_iff, le_max_iff]
    norm_num
  · simp

theorem applyZoomSteps_bounds (s : ℚ) (d : Int) (steps : List Int) :
    MIN_SCALE ≤ applyZoomSteps (calculateNextZoomScale s d) steps ∧
      applyZoomSteps (calculateNextZoomScale s d) steps ≤ MAX_SCALE := by
  induction steps generalizing s d with
  | nil => exact calcNextZoom_bounds s d
  | cons d2 rest ih => exact ih (calculateNextZoomScale s d) d2

/-- C8: zoom stepping is deterministic decile snapping — the code's
`calculateNextZoomScale` coincides with the spec's "convert to a
percentage, round to the nearest multiple of ten, step ±10 points,
convert back, clamp" recipe; consequently stepping from 100% in and
then out returns exactly to 100%, and stepping from 95% in gives
110%. -/
theorem c8_zoom_decile_snapping :
    (∀ (s : ℚ) (d : Int), calculateNextZoomScale s d = specZoomStep s d) ∧
    calculateNextZoomScale 1 1 = 11 / 10 ∧
    calculateNextZoomScale (11 / 10) (-1) = 1 ∧
    calculateNextZoomScale (19 / 20) 1 = 11 / 10 := by
  refine ⟨fun s d => ?_, ?_, ?_, ?_⟩
  · unfold calculateNextZoomScale specZoomStep jsRound
    ring_nf
  · norm_num [calculateNextZoomScale, jsRound, MIN_SCALE, MAX_SCALE, round_eq]
  · norm_num [calculateNextZoomScale, jsRound, MIN_SCALE, MAX_SCALE, round_eq]
  · norm_num [calculateNextZoomScale, jsRound, MIN_SCALE, MAX_SCALE, round_eq]

/-- C9: the output of a zoom step always lies in
`[MIN_SCALE, MAX_SCALE] = [0.1, 5]`, for every starting scale, every
direction, and every nonempty sequence of zoom-in/zoom-out steps. -/
theorem c9_zoom_scale_bounded :
    (∀ (s : ℚ) (d : Int),
      MIN_SCALE ≤ calculateNextZoomScale s d ∧ calculateNextZoomScale s d ≤ MAX_SCALE) ∧
    (∀ (s : ℚ) (steps : List Int), steps ≠ [] →
      MIN_SCALE ≤ applyZoomSteps s steps ∧ applyZoomSteps s steps ≤ MAX_SCALE) := by
  refine ⟨calcNextZoom_bounds, fun s steps hne => ?_⟩
  cases steps with
  | nil => exact absurd rfl hne
  | cons d rest => exact applyZoomSteps_bounds s d rest

/-- Witness for C9 at a concrete input: a single zoom-in from scale 1
stays within the bounds. -/
theorem c9_zoom_scale_bounded_witness :
    (([1] : List Int) ≠ []) ∧
      (MIN_SCALE ≤ applyZoomSteps 1 [1] ∧ applyZoomSteps 1 [1] ≤ MAX_SCALE) :=
  ⟨by simp, c9_zoom_scale_bounded.2 1 [1] (by simp)⟩

/-! ### `getPage`: claims C7, C5 (sequential part), C4 -/

theorem listGetInt_out_of_range {α : Type} (l : List α) (n : Int)
    (h : n < 1 ∨ (l.length : Int) < n) : listGetInt l (n - 1) = none := by
  unfold listGetInt
  rcases h with h | h
  · rw [if_neg]
    omega
  · rw [if_pos (by omega)]
    apply List.getElem?_eq_none
    omega

/-! Branch equations for `getPage`. -/

theorem getPage_cacheHit (w : World) (m : Manifest) (n : Int) (s : AState) (pg : Page)
    (h : mapLookup s.pageProxyCache n = some pg) :
    getPage w m n s = ⟨.ok pg, s, []⟩ := by
  unfold getPage
  rw [h]

theorem getPage_noEntry (w : World) (m : Manifest) (n : Int) (s : AState)
    (h1 : mapLookup s.pageProxyCache n = none)
    (h2 : listGetInt m.pages (n - 1) = none) :
    getPage w m n s = ⟨.error (.pageNotFound n), s, []⟩ := by
  unfold getPage
  rw [h1, h2]

theorem getPage_load_err (w : World) (m : Manifest) (n : Int) (s : AState)
    (entry : ManifestPage) (e : LoadErr) (s2 : AState) (ev : List Event)
    (h1 : mapLookup s.pageProxyCache n = none)
    (h2 : listGetInt m.pages (n - 1) = some entry)
    (h3 : loadDocumentForPage w n entry.pdfUrl s = ⟨.error e, s2, ev⟩) :
    getPage w m n s = ⟨.error e, s2, ev⟩ := by
  unfold getPage
  rw [h1, h2]
  dsimp only
  rw [h3]

theorem getPage_load_ok_ref (w : World) (m : Manifest) (n : Int) (s : AState)
    (entry : ManifestPage) (d : PageDoc) (s2 : AState) (ev : List Event) (k : RefKey)
    (h1 : mapLookup s.pageProxyCache n = none)
    (h2 : listGetInt m.pages (n - 1) = some entry)
    (h3 : loadDocumentForPage w n entry.pdfUrl s = ⟨.ok d, s2, ev⟩)
    (h4 : refKey d.page1.ref = some k) :
    getPage w m n s =
      ⟨.ok d.page1,
       { s2 with
          refToPageMap := mapSet s2.refToPageMap k n
          pageProxyCache := mapSet s2.pageProxyCache n d.page1 }, ev⟩ := by
  unfold getPage
  rw [h1, h2]
  dsimp only
  rw [h3]
  dsimp only
  rw [h4]

theorem getPage_load_ok_noref (w : World) (m : Manifest) (n : Int) (s : AState)
    (entry : ManifestPage) (d : PageDoc) (s2 : AState) (ev : List Event)
    (h1 : mapLookup s.pageProxyCache n = none)
    (h2 : listGetInt m.pages (n - 1) = some entry)
    (h3 : loadDocumentForPage w n entry.pdfUrl s = ⟨.ok d, s2, ev⟩)
    (h4 : refKey d.page1.ref = none) :
    getPage w m n s =
      ⟨.ok d.page1, { s2 with pageProxyCache := mapSet s2.pageProxyCache n d.page1 }, ev⟩ := by
  unfold getPage
  rw [h1, h2]
  dsimp only
  rw [h3]
  dsimp only
  rw [h4]

/-- In a successful `getPage`, the returned page is the proxy-cache
entry for `n` in the post-state. -/
theorem getPage_ok_proxyCache (w : World) (m : Manifest) (n : Int) (s : AState)
    (pg : Page) (h : (getPage w m n s).res = .ok pg) :
    mapLookup (getPage w m n s).st.pageProxyCache n = some pg := by
  cases hc : mapLookup s.pageProxyCache n with
  | some pg0 =>
    rw [getPage_cacheHit w m n s pg0 hc] at h ⊢
    cases h
    exact hc
  | none =>
    cases hg : listGetInt m.pages (n - 1) with
    | none =>
      rw [getPage_noEntry w m n s hc hg] at h
      simp at h
    | some entry =>
      rcases hld : loadDocumentForPage w n entry.pdfUrl s with ⟨res2, s2, ev2⟩
      cases res2 with
      | error e =>
        rw [getPage_load_err w m n s entry e s2 ev2 hc hg hld] at h
        simp at h
      | ok d =>
        cases hr : refKey d.page1.ref with
        | some k =>
          rw [getPage_load_ok_ref w m n s entry d s2 ev2 k hc hg hld hr] at h ⊢
          cases h
          simp [mapLookup_set_self]
        | none =>
          rw [getPage_load_ok_noref w m n s entry d s2 ev2 hc hg hld hr] at h ⊢
          cases h
          simp [mapLookup_set_self]

/-- Once `getPage(n)` has resolved with a page, calling it again
returns the very same page from the proxy cache, leaves the state
unchanged, and emits no events (in particular no fetch). -/
theorem getPage_repeat_stable (w : World) (m : Manifest) (n : Int) (s : AState)
    (pg : Page) (h : (getPage w m n s).res = .ok pg) :
    getPage w m n (getPage w m n s).st = ⟨.ok pg, (getPage w m n s).st, []⟩ := by
  have hc := getPage_ok_proxyCache w m n s pg h
  conv_lhs => rw [getPage]
  rw [hc]

/-- C7: for every page number outside `[1, pageCount]` (with the
manifest's page array matching its declared page count, and no stale
proxy-cache entry for that number), `getPage(n)` fails with the
page-not-found error, leaves the state untouched and attempts no page
fetch (empty event list). -/
theorem c7_page_not_found (w : World) (m : Manifest) (n : Int) (s : AState)
    (hwf : (m.pages.length : Int) = m.pageCount)
    (hcache : mapLookup s.pageProxyCache n = none)
    (hout : n < 1 ∨ m.pageCount < n) :
    getPage w m n s = ⟨.error (.pageNotFound n), s, []⟩ := by
  unfold getPage
  rw [hcache, listGetInt_out_of_range m.pages n (by rw [hwf]; exact hout)]

/-- Witness for C7 at a concrete input: `getPage(4)` on the three-page
manifest fails with the page-not-found error without fetching. -/
theorem c7_page_not_found_witness :
    ((manifestThree.pages.length : Int) = manifestThree.pageCount ∧
      mapLookup (emptyState (Except LoadErr PageDoc)).pageProxyCache 4 = none ∧
      ((4 : Int) < 1 ∨ manifestThree.pageCount < 4)) ∧
    getPage worldThree manifestThree 4 (emptyState _) =
      ⟨.error (.pageNotFound 4), emptyState _, []⟩ :=
  ⟨⟨by norm_num [manifestThree, mkManifest], rfl, by norm_num [manifestThree, mkManifest]⟩,
   c7_page_not_found worldThree manifestThree 4 (emptyState _)
     (by norm_num [manifestThree, mkManifest]) rfl
     (by norm_num [manifestThree, mkManifest])⟩

/-- C4 (amended): when `getPage(n)` actually performs a load (no cached
proxy for `n`) and resolves with a page whose own reference is `r`, the
reference-index entry for `r` is written to `n` before the call
returns, so `cachedPageNumber(r)` returns `n` immediately
afterwards. -/
theorem c4_ref_indexed_before_resolve (w : World) (m : Manifest) (n : Int) (s : AState)
    (pg : Page) (r : RefProxy)
    (hmiss : mapLookup s.pageProxyCache n = none)
    (hok : (getPage w m n s).res = .ok pg)
    (href : pg.ref = some r) :
    cachedPageNumber (getPage w m n s).st (some r) = some n := by
  cases hg : listGetInt m.pages (n - 1) with
  | none =>
    rw [getPage_noEntry w m n s hmiss hg] at hok
    simp at hok
  | some entry =>
    rcases hld : loadDocumentForPage w n entry.pdfUrl s with ⟨res2, s2, ev2⟩
    cases res2 with
    | error e =>
      rw [getPage_load_err w m n s entry e s2 ev2 hmiss hg hld] at hok
      simp at hok
    | ok d =>
      have hpg : pg = d.page1 := by
        cases hr : refKey d.page1.ref with
        | some k =>
          rw [getPage_load_ok_ref w m n s entry d s2 ev2 k hmiss hg hld hr] at hok
          cases hok
          rfl
        | none =>
          rw [getPage_load_ok_noref w m n s entry d s2 ev2 hmiss hg hld hr] at hok
          cases hok
          rfl
      have hr : refKey d.page1.ref = some (r.num, r.gen) := by
        rw [← hpg, href, refKey]
      rw [getPage_load_ok_ref w m n s entry d s2 ev2 (r.num, r.gen) hmiss hg hld hr]
      unfold cachedPageNumber
      simp [refKey, mapLookup_set_self]

/-! ### Branch equations for `loadDocumentForPage` and
`ensureDestinationsForPage` -/

theorem load_cacheHit (w : World) (p : Int) (u : String) (s : AState) (d : PageDoc)
    (h : mapLookup s.pageDocCache p = some d) :
    loadDocumentForPage w p u s = ⟨.ok d, s, []⟩ := by
  unfold loadDocumentForPage
  rw [h]

theorem load_settled (w : World) (p : Int) (u : String) (s : AState)
    (res : Except LoadErr PageDoc)
    (h1 : mapLookup s.pageDocCache p = none)
    (h2 : mapLookup s.pageDocLoading p = some res) :
    loadDocumentForPage w p u s = ⟨res, s, []⟩ := by
  unfold loadDocumentForPage
  rw [h1]
  dsimp only
  rw [h2]

theorem load_fetchFail (w : World) (p : Int) (u : String) (s : AState)
    (h1 : mapLookup s.pageDocCache p = none)
    (h2 : mapLookup s.pageDocLoading p = none)
    (h3 : w.fetch u = none) :
    loadDocumentForPage w p u s =
      ⟨.error .loadFailed,
       { s with pageDocLoading := mapSet s.pageDocLoading p (.error .loadFailed) },
       [Event.load p u]⟩ := by
  unfold loadDocumentForPage
  rw [h1]
  dsimp only
  rw [h2]
  dsimp only
  rw [h3]

theorem load_fetchOk (w : World) (p : Int) (u : String) (s : AState) (d : PageDoc)
    (h1 : mapLookup s.pageDocCache p = none)
    (h2 : mapLookup s.pageDocLoading p = none)
    (h3 : w.fetch u = some d) :
    loadDocumentForPage w p u s =
      ⟨.ok d,
       { (ensureWithDoc p d { s with pageDocCache := mapSet s.pageDocCache p d }).1 with
          pageDocLoading :=
            mapDelete
              (ensureWithDoc p d
                { s with pageDocCache := mapSet s.pageDocCache p d }).1.pageDocLoading p },
       Event.load p u ::
         (ensureWithDoc p d { s with pageDocCache := mapSet s.pageDocCache p d }).2⟩ := by
  unfold loadDocumentForPage
  rw [h1]
  dsimp only
  rw [h2]
  dsimp only
  rw [h3]

theorem ensureWithDoc_scanned (p : Int) (d : PageDoc) (s : AState)
    (h : s.scannedDestPages.contains p = true) :
    ensureWithDoc p d s = (s, []) := by
  unfold ensureWithDoc
  rw [h]
  simp

theorem ensureWithDoc_fresh (p : Int) (d : PageDoc) (s : AState)
    (h : s.scannedDestPages.contains p = false) :
    ensureWithDoc p d s =
      (scanCore p d { s with scannedDestPages := setAdd s.scannedDestPages p },
       [Event.scan p]) := by
  unfold ensureWithDoc
  rw [h]
  simp

theorem ensure_scanned (w : World) (p : Int) (u : String) (s : AState)
    (h : s.scannedDestPages.contains p = true) :
    ensureDestinationsForPage w p u s = ⟨.ok (), s, []⟩ := by
  unfold ensureDestinationsForPage
  rw [h]
  simp

theorem ensure_fresh_err (w : World) (p : Int) (u : String) (s : AState)
    (e : LoadErr) (s2 : AState) (ev : List Event)
    (h : s.scannedDestPages.contains p = false)
    (hl : loadDocumentForPage w p u
        { s with scannedDestPages := setAdd s.scannedDestPages p } = ⟨.error e, s2, ev⟩) :
    ensureDestinationsForPage w p u s = ⟨.error e, s2, ev⟩ := by
  unfold ensureDestinationsForPage
  rw [h]
  dsimp only
  rw [hl]
  simp

theorem ensure_fresh_ok (w : World) (p : Int) (u : String) (s : AState)
    (d : PageDoc) (s2 : AState) (ev : List Event)
    (h : s.scannedDestPages.contains p = false)
    (hl : loadDocumentForPage w p u
        { s with scannedDestPages := setAdd s.scannedDestPages p } = ⟨.ok d, s2, ev⟩) :
    ensureDestinationsForPage w p u s = ⟨.ok (), scanCore p d s2, ev ++ [Event.scan p]⟩ := by
  unfold ensureDestinationsForPage
  rw [h]
  dsimp only
  rw [hl]
  simp

/-! ### Monotonicity of `loadDocumentForPage` on the scanned set and
the destination index -/

theorem load_scanned_mono (w : World) (p : Int) (u : String) (s : AState) (q : Int)
    (h : s.scannedDestPages.contains q = true) :
    (loadDocumentForPage w p u s).st.scannedDestPages.contains q = true := by
  cases hc : mapLookup s.pageDocCache p with
  | some d => rw [load_cacheHit w p u s d hc]; exact h
  | none =>
    cases hl : mapLookup s.pageDocLoading p with
    | some res => rw [load_settled w p u s res hc hl]; exact h
    | none =>
      cases hf : w.fetch u with
      | none => rw [load_fetchFail w p u s hc hl hf]; exact h
      | some d =>
        rw [load_fetchOk w p u s d hc hl hf]
        set s1 : AState := { s with pageDocCache := mapSet s.pageDocCache p d } with hs1
        have hq : s1.scannedDestPages.contains q = true := h
        cases hsc : s1.scannedDestPages.contains p with
        | true => rw [ensureWithDoc_scanned p d s1 hsc]; exact hq
        | false =>
          rw [ensureWithDoc_fresh p d s1 hsc]
          simp only [scanCore_scannedDestPages]
          exact setAdd_contains_of_contains _ _ _ hq

theorem load_named_mono (w : World) (p : Int) (u : String) (s : AState)
    (name : String) (e : NamedDestination)
    (h : mapLookup s.namedDestinations name = some e) :
    mapLookup (loadDocumentForPage w p u s).st.namedDestinations name = some e := by
  cases hc : mapLookup s.pageDocCache p with
  | some d => rw [load_cacheHit w p u s d hc]; exact h
  | none =>
    cases hl : mapLookup s.pageDocLoading p with
    | some res => rw [load_settled w p u s res hc hl]; exact h
    | none =>
      cases hf : w.fetch u with
      | none => rw [load_fetchFail w p u s hc hl hf]; exact h
      | some d =>
        rw [load_fetchOk w p u s d hc hl hf]
        set s1 : AState := { s with pageDocCache := mapSet s.pageDocCache p d } with hs1
        have hq : mapLookup s1.namedDestinations name = some e := h
        cases hsc : s1.scannedDestPages.contains p with
        | true => rw [ensureWithDoc_scanned p d s1 hsc]; exact hq
        | false =>
          rw [ensureWithDoc_fresh p d s1 hsc]
          exact scanCore_named_mono p d _ name e hq

/-- `scanCore` maps the first target reference of a destination it
records to the scanned page number. -/
theorem scanCore_map_defines {π : Type} (p : Int) (d : PageDoc) (s : DocState π)
    (name : String) (dv : DestVal) (k : RefKey)
    (habs : mapLookup s.namedDestinations name = none)
    (hdef : docDefines d name = some dv)
    (hk : destFirstKey dv = some k) :
    mapLookup (scanCore p d s).refToPageMap k = some p := by
  unfold scanCore
  unfold docDefines at hdef
  by_cases hf : d.destsFail
  · simp [hf] at hdef
  · cases hd : d.dests with
    | none => rw [hd] at hdef; simp [hf] at hdef
    | some l =>
      rw [hd] at hdef
      simp only [hf, Bool.false_eq_true, if_neg, not_false_iff] at hdef ⊢
      exact applyDests_map_first p l s name dv k habs hdef hk

/-- C10: destination registration is first-wins and page scanning is
at-most-once.  (1) an already-scanned page is skipped entirely (no
events, no state change); (2) after any `ensureDestinationsForPage` the
page is in the scanned set — the set is extended before the page's
document is even loaded, so a page whose scan throws is never
re-scanned; (3) an already-recorded name is never overwritten by a
later scan; (4) when a fresh scan of page `p` first encounters a name,
it records that entry with `pageNumber = p` and maps the destination's
first target reference to `p` in the reference index. -/
theorem c10_first_wins_scan_once :
    (∀ (w : World) (p : Int) (u : String) (s : AState),
      s.scannedDestPages.contains p = true →
        ensureDestinationsForPage w p u s = ⟨.ok (), s, []⟩) ∧
    (∀ (w : World) (p : Int) (u : String) (s : AState),
      (ensureDestinationsForPage w p u s).st.scannedDestPages.contains p = true) ∧
    (∀ (w : World) (p : Int) (u : String) (s : AState) (name : String)
        (e : NamedDestination),
      mapLookup s.namedDestinations name = some e →
        mapLookup (ensureDestinationsForPage w p u s).st.namedDestinations name = some e) ∧
    (∀ (w : World) (p : Int) (u : String) (s : AState) (d : PageDoc) (name : String)
        (dv : DestVal),
      s.scannedDestPages.contains p = false →
      mapLookup s.pageDocCache p = none →
      mapLookup s.pageDocLoading p = none →
      w.fetch u = some d →
      mapLookup s.namedDestinations name = none →
      docDefines d name = some dv →
        mapLookup (ensureDestinationsForPage w p u s).st.namedDestinations name =
            some ⟨dv, p⟩ ∧
          ∀ k, destFirstKey dv = some k →
            mapLookup (ensureDestinationsForPage w p u s).st.refToPageMap k = some p) := by
  refine ⟨fun w p u s h => ensure_scanned w p u s h, ?_, ?_, ?_⟩
  · intro w p u s
    cases hsc : s.scannedDestPages.contains p with
    | true => rw [ensure_scanned w p u s hsc]; exact hsc
    | false =>
      set s1 : AState := { s with scannedDestPages := setAdd s.scannedDestPages p } with hs1
      have hmem : s1.scannedDestPages.contains p = true := setAdd_contains_self _ _
      rcases hl : loadDocumentForPage w p u s1 with ⟨res, s2, ev⟩
      have hmono := load_scanned_mono w p u s1 p hmem
      rw [hl] at hmono
      cases res with
      | error e => rw [ensure_fresh_err w p u s e s2 ev hsc hl]; exact hmono
      | ok d =>
        rw [ensure_fresh_ok w p u s d s2 ev hsc hl]
        simp only [scanCore_scannedDestPages]
        exact hmono
  · intro w p u s name e h
    cases hsc : s.scannedDestPages.contains p with
    | true => rw [ensure_scanned w p u s hsc]; exact h
    | false =>
      set s1 : AState := { s with scannedDestPages := setAdd s.scannedDestPages p } with hs1
      have h1 : mapLookup s1.namedDestinations name = some e := h
      rcases hl : loadDocumentForPage w p u s1 with ⟨res, s2, ev⟩
      have hmono := load_named_mono w p u s1 name e h1
      rw [hl] at hmono
      cases res with
      | error e2 => rw [ensure_fresh_err w p u s e2 s2 ev hsc hl]; exact hmono
      | ok d =>
        rw [ensure_fresh_ok w p u s d s2 ev hsc hl]
        exact scanCore_named_mono p d s2 name e hmono
  · intro w p u s d name dv hsc hdc hdl hf habs hdef
    set s1 : AState := { s with scannedDestPages := setAdd s.scannedDestPages p } with hs1
    have hdc1 : mapLookup s1.pageDocCache p = none := hdc
    have hdl1 : mapLookup s1.pageDocLoading p = none := hdl
    have hload := load_fetchOk w p u s1 d hdc1 hdl1 hf
    set s1d : AState := { s1 with pageDocCache := mapSet s1.pageDocCache p d } with hs1d
    have hscd : s1d.scannedDestPages.contains p = true := setAdd_contains_self _ _
    rw [ensureWithDoc_scanned p d s1d hscd] at hload
    rw [ensure_fresh_ok w p u s d _ _ hsc hload]
    have habs2 :
        mapLookup ({ s1d with
          pageDocLoading := mapDelete s1d.pageDocLoading p } : AState).namedDestinations
          name = none := habs
    constructor
    · exact scanCore_named_defines p d _ name dv habs2 hdef
    · intro k hk
      exact scanCore_map_defines p d _ name dv k habs2 hdef hk

/-- Witness for C10: the four parts at concrete inputs.  Part (1) on a
state that scanned page 1; parts (2)-(4) on a fresh state with the
world whose page 3 defines `"sec"` targeting `(1,0)`. -/
theorem c10_first_wins_scan_once_witness :
    (ensureDestinationsForPage worldThree 1 urlA stateAfterPage1 =
      ⟨.ok (), stateAfterPage1, []⟩) ∧
    ((ensureDestinationsForPage worldThree 3 urlC
        (emptyState _)).st.scannedDestPages.contains 3 = true) ∧
    (mapLookup (ensureDestinationsForPage worldThree 2 urlB
        stateAfterScan3).st.namedDestinations "sec" = some ⟨destX, 3⟩) ∧
    (mapLookup (ensureDestinationsForPage worldThree 3 urlC
          (emptyState _)).st.namedDestinations "sec" = some ⟨destX, 3⟩ ∧
      mapLookup (ensureDestinationsForPage worldThree 3 urlC
          (emptyState _)).st.refToPageMap (1, 0) = some 3) := by
  refine ⟨?_, c10_first_wins_scan_once.2.1 worldThree 3 urlC (emptyState _), ?_, ?_⟩
  · exact c10_first_wins_scan_once.1 worldThree 1 urlA stateAfterPage1 (by rfl)
  · exact c10_first_wins_scan_once.2.2.1 worldThree 2 urlB stateAfterScan3 "sec"
      ⟨destX, 3⟩ (by rfl)
  · have h := c10_first_wins_scan_once.2.2.2 worldThree 3 urlC (emptyState _) docWithSec
      "sec" destX (by rfl) (by rfl) (by rfl) (by rfl) (by rfl) (by rfl)
    exact ⟨h.1, h.2 (1, 0) (by rfl)⟩

/-! ### Event-log lemmas for the small-step semantics -/

theorem loadCount_append (n : Int) (l r : List Event) :
    loadCount n (l ++ r) = loadCount n l + loadCount n r :=
  List.countP_append _ l r

theorem loadCount_single_load (n k : Int) (u : String) :
    loadCount n [Event.load k u] = if k = n then 1 else 0 := by
  by_cases h : k = n <;> simp [loadCount, List.countP, List.countP.go, h]

theorem loadCount_single_other (n : Int) (e : Event) (h : ∀ k u, e ≠ Event.load k u) :
    loadCount n [e] = 0 := by
  cases e with
  | load k u => exact absurd rfl (h k u)
  | scan k => simp [loadCount, List.countP, List.countP.go]
  | scanDone k => simp [loadCount, List.countP, List.countP.go]
  | clearLoading k => simp [loadCount, List.countP, List.countP.go]
  | release d => simp [loadCount, List.countP, List.countP.go]

theorem chkSeen_append (seen : List Int) (l r : List Event) :
    chkSeen seen (l ++ r) = (chkSeen seen l && chkSeen (seenAfter seen l) r) := by
  induction l generalizing seen with
  | nil => simp [chkSeen, seenAfter]
  | cons e rest ih =>
    cases e with
    | load k u => simpa [chkSeen, seenAfter] using ih seen
    | scan k => simpa [chkSeen, seenAfter] using ih seen
    | scanDone k => simpa [chkSeen, seenAfter] using ih (k :: seen)
    | clearLoading k => simp [chkSeen, seenAfter, ih seen, Bool.and_assoc]
    | release d => simpa [chkSeen, seenAfter] using ih seen

theorem seenAfter_mem (seen : List Int) (l : List Event) (n : Int) :
    n ∈ seenAfter seen l ↔ (n ∈ seen ∨ Event.scanDone n ∈ l) := by
  induction l generalizing seen with
  | nil => simp [seenAfter]
  | cons e rest ih =>
    cases e with
    | load k u => simp [seenAfter, ih seen]
    | scan k => simp [seenAfter, ih seen]
    | scanDone k =>
      have hiff := ih (k :: seen)
      by_cases hk : k = n
      · subst hk
        simp [seenAfter, hiff]
      · have hk2 : ¬(n = k) := fun hh => hk hh.symm
        simp only [seenAfter, hiff, List.mem_cons, List.mem_cons, Event.scanDone.injEq]
        constructor
        · rintro ((h | h) | h)
          · exact absurd h hk2
          · exact Or.inl h
          · exact Or.inr (Or.inr h)
        · rintro (h | h | h)
          · exact Or.inl (Or.inr h)
          · exact absurd h.symm hk
          · exact Or.inr h
    | clearLoading k => simp [seenAfter, ih seen]
    | release d => simp [seenAfter, ih seen]

theorem chkSeen_append_benign (l : List Event) (e : Event)
    (h : chkSeen [] l = true) (he : ∀ k, e ≠ Event.clearLoading k) :
    chkSeen [] (l ++ [e]) = true := by
  rw [chkSeen_append]
  cases e with
  | load k u => simp [chkSeen, h]
  | scan k => simp [chkSeen, h]
  | scanDone k => simp [chkSeen, h]
  | clearLoading k => exact absurd rfl (he k)
  | release d => simp [chkSeen, h]

theorem chkSeen_append_clear (l : List Event) (n : Int)
    (h : chkSeen [] l = true) (hs : Event.scanDone n ∈ l) :
    chkSeen [] (l ++ [Event.clearLoading n]) = true := by
  rw [chkSeen_append]
  have hmem : n ∈ seenAfter [] l := (seenAfter_mem [] l n).2 (Or.inr hs)
  simp [chkSeen, h, hmem]

/-! ### The concurrency invariant -/

/-- Invariant of destroy-free runs: (1) each page is fetched at most
once; (2) a page with neither a cached document nor an in-flight entry
has never been fetched; (3) a load operation past its fetch (awaiting
the destination scan or about to clear the in-flight entry) has its
document cached; (4) an in-flight entry is only ever removed after the
destination scan of its page completed; (5) a load operation about to
clear the in-flight entry has completed its destination scan. -/
def InvB (cfg : BConfig) : Prop :=
  (∀ n : Int, loadCount n cfg.events ≤ 1) ∧
  (∀ n : Int, mapLookup cfg.st.pageDocCache n = none →
      mapLookup cfg.st.pageDocLoading n = none → loadCount n cfg.events = 0) ∧
  (∀ n d p, (BTask.ownAwaitDests n d p ∈ cfg.tasks ∨ BTask.ownFinish n d p ∈ cfg.tasks) →
      (mapLookup cfg.st.pageDocCache n).isSome = true) ∧
  chkSeen [] cfg.events = true ∧
  (∀ n d p, BTask.ownFinish n d p ∈ cfg.tasks →
      Event.scanDone n ∈ cfg.events)

theorem invB_init (reqs : List Int) : InvB (initB reqs) := by
  refine ⟨?_, ?_, ?_, ?_, ?_⟩
  · intro n
    simp [initB, loadCount]
  · intro n _ _
    simp [initB, loadCount]
  · intro n d p h
    rcases h with h | h <;>
    · simp only [initB] at h
      rcases List.mem_map.1 h with ⟨x, _, hx⟩
      cases hx
  · simp [initB, chkSeen]
  · intro n d p h
    simp only [initB] at h
    rcases List.mem_map.1 h with ⟨x, _, hx⟩
    cases hx

/-! ### Branch equations for `runTask` -/

theorem rt_none (w : World) (m : Manifest) (cfg : BConfig) (i : Nat)
    (ht : cfg.tasks[i]? = none) : runTask w m cfg i = cfg := by
  unfold runTask
  rw [ht]

theorem rt_pgDone (w : World) (m : Manifest) (cfg : BConfig) (i : Nat) (n : Int)
    (r : Except LoadErr Page) (ht : cfg.tasks[i]? = some (.pgDone n r)) :
    runTask w m cfg i = cfg := by
  unfold runTask
  rw [ht]

theorem rt_ownDead (w : World) (m : Manifest) (cfg : BConfig) (i : Nat)
    (ht : cfg.tasks[i]? = some .ownDead) : runTask w m cfg i = cfg := by
  unfold runTask
  rw [ht]

theorem rt_pgStart_hit (w : World) (m : Manifest) (cfg : BConfig) (i : Nat) (n : Int)
    (pg : Page) (ht : cfg.tasks[i]? = some (.pgStart n))
    (h1 : mapLookup cfg.st.pageProxyCache n = some pg) :
    runTask w m cfg i = { cfg with tasks := cfg.tasks.set i (.pgDone n (.ok pg)) } := by
  unfold runTask
  rw [ht]
  dsimp only
  rw [h1]

theorem rt_pgStart_noentry (w : World) (m : Manifest) (cfg : BConfig) (i : Nat) (n : Int)
    (ht : cfg.tasks[i]? = some (.pgStart n))
    (h1 : mapLookup cfg.st.pageProxyCache n = none)
    (h2 : listGetInt m.pages (n - 1) = none) :
    runTask w m cfg i =
      { cfg with tasks := cfg.tasks.set i (.pgDone n (.error (.pageNotFound n))) } := by
  unfold runTask
  rw [ht]
  dsimp only
  rw [h1]
  dsimp only
  rw [h2]

theorem rt_pgStart_doc (w : World) (m : Manifest) (cfg : BConfig) (i : Nat) (n : Int)
    (entry : ManifestPage) (d : PageDoc)
    (ht : cfg.tasks[i]? = some (.pgStart n))
    (h1 : mapLookup cfg.st.pageProxyCache n = none)
    (h2 : listGetInt m.pages (n - 1) = some entry)
    (h3 : mapLookup cfg.st.pageDocCache n = some d) :
    runTask w m cfg i = { cfg with tasks := cfg.tasks.set i (.pgAwaitPage1 n d) } := by
  unfold runTask
  rw [ht]
  dsimp only
  rw [h1]
  dsimp only
  rw [h2]
  dsimp only
  rw [h3]

theorem rt_pgStart_loading (w : World) (m : Manifest) (cfg : BConfig) (i : Nat) (n : Int)
    (entry : ManifestPage) (p : Nat)
    (ht : cfg.tasks[i]? = some (.pgStart n))
    (h1 : mapLookup cfg.st.pageProxyCache n = none)
    (h2 : listGetInt m.pages (n - 1) = some entry)
    (h3 : mapLookup cfg.st.pageDocCache n = none)
    (h4 : mapLookup cfg.st.pageDocLoading n = some p) :
    runTask w m cfg i = { cfg with tasks := cfg.tasks.set i (.pgAwaitDoc n p) } := by
  unfold runTask
  rw [ht]
  dsimp only
  rw [h1]
  dsimp only
  rw [h2]
  dsimp only
  rw [h3]
  dsimp only
  rw [h4]

theorem rt_pgStart_fresh (w : World) (m : Manifest) (cfg : BConfig) (i : Nat) (n : Int)
    (entry : ManifestPage)
    (ht : cfg.tasks[i]? = some (.pgStart n))
    (h1 : mapLookup cfg.st.pageProxyCache n = none)
    (h2 : listGetInt m.pages (n - 1) = some entry)
    (h3 : mapLookup cfg.st.pageDocCache n = none)
    (h4 : mapLookup cfg.st.pageDocLoading n = none) :
    runTask w m cfg i =
      { st := { cfg.st with pageDocLoading := mapSet cfg.st.pageDocLoading n cfg.nextP }
        tasks := (cfg.tasks.set i (.pgAwaitDoc n cfg.nextP)) ++
          [.ownAwaitFetch n entry.pdfUrl cfg.nextP]
        promises := cfg.promises
        nextP := cfg.nextP + 1
        events := cfg.events ++ [Event.load n entry.pdfUrl] } := by
  unfold runTask
  rw [ht]
  dsimp only
  rw [h1]
  dsimp only
  rw [h2]
  dsimp only
  rw [h3]
  dsimp only
  rw [h4]

theorem rt_fetch_fail (w : World) (m : Manifest) (cfg : BConfig) (i : Nat) (n : Int)
    (u : String) (p : Nat)
    (ht : cfg.tasks[i]? = some (.ownAwaitFetch n u p))
    (h1 : w.fetch u = none) :
    runTask w m cfg i =
      { cfg with
          tasks := cfg.tasks.set i .ownDead
          promises := mapSet cfg.promises p (.error .loadFailed) } := by
  unfold runTask
  rw [ht]
  dsimp only
  rw [h1]

theorem rt_fetch_ok_scanned (w : World) (m : Manifest) (cfg : BConfig) (i : Nat) (n : Int)
    (u : String) (p : Nat) (d : PageDoc)
    (ht : cfg.tasks[i]? = some (.ownAwaitFetch n u p))
    (h1 : w.fetch u = some d)
    (h2 : cfg.st.scannedDestPages.contains n = true) :
    runTask w m cfg i =
      { cfg with
          st := { cfg.st with pageDocCache := mapSet cfg.st.pageDocCache n d }
          tasks := cfg.tasks.set i (.ownFinish n d p)
          events := cfg.events ++ [Event.scanDone n] } := by
  unfold runTask
  rw [ht]
  dsimp only
  rw [h1]
  dsimp only
  rw [h2]
  simp

theorem rt_fetch_ok_fresh (w : World) (m : Manifest) (cfg : BConfig) (i : Nat) (n : Int)
    (u : String) (p : Nat) (d : PageDoc)
    (ht : cfg.tasks[i]? = some (.ownAwaitFetch n u p))
    (h1 : w.fetch u = some d)
    (h2 : cfg.st.scannedDestPages.contains n = false) :
    runTask w m cfg i =
      { cfg with
          st := { cfg.st with
            pageDocCache := mapSet cfg.st.pageDocCache n d
            scannedDestPages := setAdd cfg.st.scannedDestPages n }
          tasks := cfg.tasks.set i (.ownAwaitDests n d p)
          events := cfg.events ++ [Event.scan n] } := by
  unfold runTask
  rw [ht]
  dsimp only
  rw [h1]
  dsimp only
  rw [h2]
  simp

theorem rt_dests (w : World) (m : Manifest) (cfg : BConfig) (i : Nat) (n : Int)
    (d : PageDoc) (p : Nat)
    (ht : cfg.tasks[i]? = some (.ownAwaitDests n d p)) :
    runTask w m cfg i =
      { cfg with
          st := scanCore n d cfg.st
          tasks := cfg.tasks.set i (.ownFinish n d p)
          events := cfg.events ++ [Event.scanDone n] } := by
  unfold runTask
  rw [ht]

theorem rt_finish (w : World) (m : Manifest) (cfg : BConfig) (i : Nat) (n : Int)
    (d : PageDoc) (p : Nat)
    (ht : cfg.tasks[i]? = some (.ownFinish n d p)) :
    runTask w m cfg i =
      { cfg with
          st := { cfg.st with pageDocLoading := mapDelete cfg.st.pageDocLoading n }
          tasks := cfg.tasks.set i .ownDead
          promises := mapSet cfg.promises p (.ok d)
          events := cfg.events ++ [Event.clearLoading n] } := by
  unfold runTask
  rw [ht]

theorem rt_awaitDoc_blocked (w : World) (m : Manifest) (cfg : BConfig) (i : Nat) (n : Int)
    (p : Nat)
    (ht : cfg.tasks[i]? = some (.pgAwaitDoc n p))
    (h1 : mapLookup cfg.promises p = none) :
    runTask w m cfg i = cfg := by
  unfold runTask
  rw [ht]
  dsimp only
  rw [h1]

theorem rt_awaitDoc_err (w : World) (m : Manifest) (cfg : BConfig) (i : Nat) (n : Int)
    (p : Nat) (e : LoadErr)
    (ht : cfg.tasks[i]? = some (.pgAwaitDoc n p))
    (h1 : mapLookup cfg.promises p = some (.error e)) :
    runTask w m cfg i = { cfg with tasks := cfg.tasks.set i (.pgDone n (.error e)) } := by
  unfold runTask
  rw [ht]
  dsimp only
  rw [h1]

theorem rt_awaitDoc_ok (w : World) (m : Manifest) (cfg : BConfig) (i : Nat) (n : Int)
    (p : Nat) (d : PageDoc)
    (ht : cfg.tasks[i]? = some (.pgAwaitDoc n p))
    (h1 : mapLookup cfg.promises p = some (.ok d)) :
    runTask w m cfg i = { cfg with tasks := cfg.tasks.set i (.pgAwaitPage1 n d) } := by
  unfold runTask
  rw [ht]
  dsimp only
  rw [h1]

theorem rt_page1_ref (w : World) (m : Manifest) (cfg : BConfig) (i : Nat) (n : Int)
    (d : PageDoc) (k : RefKey)
    (ht : cfg.tasks[i]? = some (.pgAwaitPage1 n d))
    (h1 : refKey d.page1.ref = some k) :
    runTask w m cfg i =
      { cfg with
          st := { cfg.st with
            refToPageMap := mapSet cfg.st.refToPageMap k n
            pageProxyCache := mapSet cfg.st.pageProxyCache n d.page1 }
          tasks := cfg.tasks.set i (.pgDone n (.ok d.page1)) } := by
  unfold runTask
  rw [ht]
  dsimp only
  rw [h1]

theorem rt_page1_noref (w : World) (m : Manifest) (cfg : BConfig) (i : Nat) (n : Int)
    (d : PageDoc)
    (ht : cfg.tasks[i]? = some (.pgAwaitPage1 n d))
    (h1 : refKey d.page1.ref = none) :
    runTask w m cfg i =
      { cfg with
          st := { cfg.st with
            pageProxyCache := mapSet cfg.st.pageProxyCache n d.page1 }
          tasks := cfg.tasks.set i (.pgDone n (.ok d.page1)) } := by
  unfold runTask
  rw [ht]
  dsimp only
  rw [h1]

/-! ### Invariant preservation -/

/-- A step that only replaces task `i` by a task that is neither
`ownAwaitDests` nor `ownFinish` (and possibly settles promises)
preserves the invariant. -/
theorem invB_tasks_set (cfg : BConfig) (i : Nat) (t : BTask)
    (pr : List (Nat × Except LoadErr PageDoc)) (h : InvB cfg)
    (hnotDests : ∀ n d p, t ≠ BTask.ownAwaitDests n d p)
    (hnotFin : ∀ n d p, t ≠ BTask.ownFinish n d p) :
    InvB { cfg with tasks := cfg.tasks.set i t, promises := pr } := by
  obtain ⟨h1, h2, h3, h4, h5⟩ := h
  refine ⟨h1, h2, ?_, h4, ?_⟩
  · intro n d p hmem
    apply h3 n d p
    rcases hmem with hm | hm
    · rcases List.mem_or_eq_of_mem_set hm with hm2 | hm2
      · exact Or.inl hm2
      · exact absurd hm2.symm (hnotDests n d p)
    · rcases List.mem_or_eq_of_mem_set hm with hm2 | hm2
      · exact Or.inr hm2
      · exact absurd hm2.symm (hnotFin n d p)
  · intro n d p hmem
    apply h5 n d p
    rcases List.mem_or_eq_of_mem_set hmem with hm2 | hm2
    · exact hm2
    · exact absurd hm2.symm (hnotFin n d p)

/-- Every scheduler action that advances a task preserves the
invariant. -/
theorem invB_step (w : World) (m : Manifest) (cfg : BConfig) (i : Nat) (h : InvB cfg) :
    InvB (runTask w m cfg i) := by
  cases ht : cfg.tasks[i]? with
  | none => rw [rt_none w m cfg i ht]; exact h
  | some t =>
    cases t with
    | pgDone n r => rw [rt_pgDone w m cfg i n r ht]; exact h
    | ownDead => rw [rt_ownDead w m cfg i ht]; exact h
    | pgStart n =>
      cases hpc : mapLookup cfg.st.pageProxyCache n with
      | some pg =>
        rw [rt_pgStart_hit w m cfg i n pg ht hpc]
        exact invB_tasks_set cfg i _ cfg.promises h (by intro a b c; simp)
          (by intro a b c; simp)
      | none =>
        cases hge : listGetInt m.pages (n - 1) with
        | none =>
          rw [rt_pgStart_noentry w m cfg i n ht hpc hge]
          exact invB_tasks_set cfg i _ cfg.promises h (by intro a b c; simp)
            (by intro a b c; simp)
        | some entry =>
          cases hdc : mapLookup cfg.st.pageDocCache n with
          | some d =>
            rw [rt_pgStart_doc w m cfg i n entry d ht hpc hge hdc]
            exact invB_tasks_set cfg i _ cfg.promises h (by intro a b c; simp)
              (by intro a b c; simp)
          | none =>
            cases hdl : mapLookup cfg.st.pageDocLoading n with
            | some p =>
              rw [rt_pgStart_loading w m cfg i n entry p ht hpc hge hdc hdl]
              exact invB_tasks_set cfg i _ cfg.promises h (by intro a b c; simp)
                (by intro a b c; simp)
            | none =>
              rw [rt_pgStart_fresh w m cfg i n entry ht hpc hge hdc hdl]
              obtain ⟨h1, h2, h3, h4, h5⟩ := h
              refine ⟨?_, ?_, ?_, ?_, ?_⟩
              · intro n2
                rw [loadCount_append, loadCount_single_load]
                by_cases hn : n = n2
                · subst hn
                  rw [h2 n hdc hdl]
                  simp
                · rw [if_neg hn]
                  simpa using h1 n2
              · intro n2 hdc2 hdl2
                simp only at hdc2 hdl2
                by_cases hn : n = n2
                · subst hn
                  rw [mapLookup_set_self] at hdl2
                  cases hdl2
                · rw [mapLookup_set_ne _ _ _ _ (fun hh => hn hh.symm)] at hdl2
                  rw [loadCount_append, loadCount_single_load, if_neg hn,
                    h2 n2 hdc2 hdl2]
              · intro n2 d2 p2 hmem
                apply h3 n2 d2 p2
                rcases hmem with hm | hm <;>
                  rcases List.mem_append.1 hm with hm1 | hm1
                · rcases List.mem_or_eq_of_mem_set hm1 with hm2 | hm2
                  · exact Or.inl hm2
                  · cases hm2
                · simp at hm1
                · rcases List.mem_or_eq_of_mem_set hm1 with hm2 | hm2
                  · exact Or.inr hm2
                  · cases hm2
                · simp at hm1
              · exact chkSeen_append_benign _ _ h4 (by intro k; simp)
              · intro n2 d2 p2 hmem
                rcases List.mem_append.1 hmem with hm1 | hm1
                · rcases List.mem_or_eq_of_mem_set hm1 with hm2 | hm2
                  · exact List.mem_append.2 (Or.inl (h5 n2 d2 p2 hm2))
                  · cases hm2
                · simp at hm1
    | ownAwaitFetch n u p =>
      cases hf : w.fetch u with
      | none =>
        rw [rt_fetch_fail w m cfg i n u p ht hf]
        exact invB_tasks_set cfg i _ _ h (by intro a b c; simp) (by intro a b c; simp)
      | some d =>
        cases hsc : cfg.st.scannedDestPages.contains n with
        | true =>
          rw [rt_fetch_ok_scanned w m cfg i n u p d ht hf hsc]
          obtain ⟨h1, h2, h3, h4, h5⟩ := h
          refine ⟨?_, ?_, ?_, ?_, ?_⟩
          · intro n2
            rw [loadCount_append, loadCount_single_other _ _ (by intro a b; simp)]
            simpa using h1 n2
          · intro n2 hdc2 hdl2
            simp only at hdc2 hdl2
            by_cases hn : n = n2
            · subst hn
              rw [mapLookup_set_self] at hdc2
              cases hdc2
            · rw [mapLookup_set_ne _ _ _ _ (fun hh => hn hh.symm)] at hdc2
              rw [loadCount_append, loadCount_single_other _ _ (by intro a b; simp)]
              rw [h2 n2 hdc2 hdl2]
          · intro n2 d2 p2 hmem
            have hbase : BTask.ownAwaitDests n2 d2 p2 ∈ cfg.tasks ∨
                BTask.ownFinish n2 d2 p2 ∈ cfg.tasks ∨ (n2 = n ∧ d2 = d) := by
              rcases hmem with hm | hm
              · rcases List.mem_or_eq_of_mem_set hm with hm2 | hm2
                · exact Or.inl hm2
                · cases hm2
              · rcases List.mem_or_eq_of_mem_set hm with hm2 | hm2
                · exact Or.inr (Or.inl hm2)
                · cases hm2
                  exact Or.inr (Or.inr ⟨rfl, rfl⟩)
            rcases hbase with hb | hb | ⟨hbn, hbd⟩
            · exact mapLookup_set_isSome _ _ _ _ (h3 n2 d2 p2 (Or.inl hb))
            · exact mapLookup_set_isSome _ _ _ _ (h3 n2 d2 p2 (Or.inr hb))
            · subst hbn
              simp [mapLookup_set_self]
          · exact chkSeen_append_benign _ _ h4 (by intro k; simp)
          · intro n2 d2 p2 hmem
            rcases List.mem_or_eq_of_mem_set hmem with hm2 | hm2
            · exact List.mem_append.2 (Or.inl (h5 n2 d2 p2 hm2))
            · cases hm2
              exact List.mem_append.2 (Or.inr (List.mem_singleton.2 rfl))
        | false =>
          rw [rt_fetch_ok_fresh w m cfg i n u p d ht hf hsc]
          obtain ⟨h1, h2, h3, h4, h5⟩ := h
          refine ⟨?_, ?_, ?_, ?_, ?_⟩
          · intro n2
            rw [loadCount_append, loadCount_single_other _ _ (by intro a b; simp)]
            simpa using h1 n2
          · intro n2 hdc2 hdl2
            simp only at hdc2 hdl2
            by_cases hn : n = n2
            · subst hn
              rw [mapLookup_set_self] at hdc2
              cases hdc2
            · rw [mapLookup_set_ne _ _ _ _ (fun hh => hn hh.symm)] at hdc2
              rw [loadCount_append, loadCount_single_other _ _ (by intro a b; simp)]
              rw [h2 n2 hdc2 hdl2]
          · intro n2 d2 p2 hmem
            have hbase : BTask.ownAwaitDests n2 d2 p2 ∈ cfg.tasks ∨
                BTask.ownFinish n2 d2 p2 ∈ cfg.tasks ∨ (n2 = n ∧ d2 = d) := by
              rcases hmem with hm | hm
              · rcases List.mem_or_eq_of_mem_set hm with hm2 | hm2
                · exact Or.inl hm2
                · cases hm2
                  exact Or.inr (Or.inr ⟨rfl, rfl⟩)
              · rcases List.mem_or_eq_of_mem_set hm with hm2 | hm2
                · exact Or.inr (Or.inl hm2)
                · cases hm2
            rcases hbase with hb | hb | ⟨hbn, hbd⟩
            · exact mapLookup_set_isSome _ _ _ _ (h3 n2 d2 p2 (Or.inl hb))
            · exact mapLookup_set_isSome _ _ _ _ (h3 n2 d2 p2 (Or.inr hb))
            · subst hbn
              simp [mapLookup_set_self]
          · exact chkSeen_append_benign _ _ h4 (by intro k; simp)
          · intro n2 d2 p2 hmem
            rcases List.mem_or_eq_of_mem_set hmem with hm2 | hm2
            · exact List.mem_append.2 (Or.inl (h5 n2 d2 p2 hm2))
            · cases hm2
    | ownAwaitDests n d p =>
      rw [rt_dests w m cfg i n d p ht]
      obtain ⟨h1, h2, h3, h4, h5⟩ := h
      refine ⟨?_, ?_, ?_, ?_, ?_⟩
      · intro n2
        rw [loadCount_append, loadCount_single_other _ _ (by intro a b; simp)]
        simpa using h1 n2
      · intro n2 hdc2 hdl2
        simp only [scanCore_pageDocCache, scanCore_pageDocLoading] at hdc2 hdl2
        rw [loadCount_append, loadCount_single_other _ _ (by intro a b; simp)]
        rw [h2 n2 hdc2 hdl2]
      · intro n2 d2 p2 hmem
        have hbase : BTask.ownAwaitDests n2 d2 p2 ∈ cfg.tasks ∨
            BTask.ownFinish n2 d2 p2 ∈ cfg.tasks ∨ (n2 = n ∧ d2 = d) := by
          rcases hmem with hm | hm
          · rcases List.mem_or_eq_of_mem_set hm with hm2 | hm2
            · exact Or.inl hm2
            · cases hm2
          · rcases List.mem_or_eq_of_mem_set hm with hm2 | hm2
            · exact Or.inr (Or.inl hm2)
            · cases hm2
              exact Or.inr (Or.inr ⟨rfl, rfl⟩)
        simp only [scanCore_pageDocCache]
        rcases hbase with hb | hb | ⟨hbn, hbd⟩
        · exact h3 n2 d2 p2 (Or.inl hb)
        · exact h3 n2 d2 p2 (Or.inr hb)
        · subst hbn
          exact h3 n2 d p (Or.inl (List.getElem?_mem ht))
      · exact chkSeen_append_benign _ _ h4 (by intro k; simp)
      · intro n2 d2 p2 hmem
        rcases List.mem_or_eq_of_mem_set hmem with hm2 | hm2
        · exact List.mem_append.2 (Or.inl (h5 n2 d2 p2 hm2))
        · cases hm2
          exact List.mem_append.2 (Or.inr (List.mem_singleton.2 rfl))
    | ownFinish n d p =>
      rw [rt_finish w m cfg i n d p ht]
      obtain ⟨h1, h2, h3, h4, h5⟩ := h
      refine ⟨?_, ?_, ?_, ?_, ?_⟩
      · intro n2
        rw [loadCount_append, loadCount_single_other _ _ (by intro a b; simp)]
        simpa using h1 n2
      · intro n2 hdc2 hdl2
        simp only at hdc2 hdl2
        rw [loadCount_append, loadCount_single_other _ _ (by intro a b; simp)]
        by_cases hn : n = n2
        · subst hn
          have hsome := h3 n d p (Or.inr (List.getElem?_mem ht))
          rw [hdc2] at hsome
          cases hsome
        · rw [mapLookup_delete_ne _ _ _ (fun hh => hn hh.symm)] at hdl2
          rw [h2 n2 hdc2 hdl2]
      · intro n2 d2 p2 hmem
        have hbase : BTask.ownAwaitDests n2 d2 p2 ∈ cfg.tasks ∨
            BTask.ownFinish n2 d2 p2 ∈ cfg.tasks := by
          rcases hmem with hm | hm
          · rcases List.mem_or_eq_of_mem_set hm with hm2 | hm2
            · exact Or.inl hm2
            · cases hm2
          · rcases List.mem_or_eq_of_mem_set hm with hm2 | hm2
            · exact Or.inr hm2
            · cases hm2
        exact h3 n2 d2 p2 hbase
      · exact chkSeen_append_clear _ _ h4 (h5 n d p (List.getElem?_mem ht))
      · intro n2 d2 p2 hmem
        rcases List.mem_or_eq_of_mem_set hmem with hm2 | hm2
        · exact List.mem_append.2 (Or.inl (h5 n2 d2 p2 hm2))
        · cases hm2
    | pgAwaitDoc n p =>
      cases hp : mapLookup cfg.promises p with
      | none => rw [rt_awaitDoc_blocked w m cfg i n p ht hp]; exact h
      | some r =>
        cases r with
        | error e =>
          rw [rt_awaitDoc_err w m cfg i n p e ht hp]
          exact invB_tasks_set cfg i _ cfg.promises h (by intro a b c; simp)
            (by intro a b c; simp)
        | ok d =>
          rw [rt_awaitDoc_ok w m cfg i n p d ht hp]
          exact invB_tasks_set cfg i _ cfg.promises h (by intro a b c; simp)
            (by intro a b c; simp)
    | pgAwaitPage1 n d =>
      obtain ⟨h1, h2, h3, h4, h5⟩ := h
      have hgoal : ∀ mp : List (RefKey × Int), InvB
          { cfg with
              st := { cfg.st with
                refToPageMap := mp
                pageProxyCache := mapSet cfg.st.pageProxyCache n d.page1 }
              tasks := cfg.tasks.set i (.pgDone n (.ok d.page1)) } := by
        intro mp
        refine ⟨h1, ?_, ?_, h4, ?_⟩
        · intro n2 hdc2 hdl2
          simp only at hdc2 hdl2
          exact h2 n2 hdc2 hdl2
        · intro n2 d2 p2 hmem
          have hbase : BTask.ownAwaitDests n2 d2 p2 ∈ cfg.tasks ∨
              BTask.ownFinish n2 d2 p2 ∈ cfg.tasks := by
            rcases hmem with hm | hm
            · rcases List.mem_or_eq_of_mem_set hm with hm2 | hm2
              · exact Or.inl hm2
              · cases hm2
            · rcases List.mem_or_eq_of_mem_set hm with hm2 | hm2
              · exact Or.inr hm2
              · cases hm2
          exact h3 n2 d2 p2 hbase
        · intro n2 d2 p2 hmem
          rcases List.mem_or_eq_of_mem_set hmem with hm2 | hm2
          · exact h5 n2 d2 p2 hm2
          · cases hm2
      cases hr : refKey d.page1.ref with
      | some k =>
        rw [rt_page1_ref w m cfg i n d k ht hr]
        exact hgoal (mapSet cfg.st.refToPageMap k n)
      | none =>
        rw [rt_page1_noref w m cfg i n d ht hr]
        exact hgoal cfg.st.refToPageMap

/-- The invariant holds after any destroy-free schedule. -/
theorem invB_run (w : World) (m : Manifest) (cfg : BConfig) (acts : List BAct)
    (h : InvB cfg) (hnd : noDestroy acts) : InvB (runB w m cfg acts) := by
  induction acts generalizing cfg with
  | nil => exact h
  | cons a rest ih =>
    cases a with
    | destroy => exact absurd rfl (hnd BAct.destroy (List.mem_cons_self _ _))
    | task i =>
      have hstep : InvB (bstep w m cfg (BAct.task i)) := invB_step w m cfg i h
      exact ih _ hstep (fun a2 ha2 => hnd a2 (List.mem_cons_of_mem _ ha2))

/-- C2: under every destroy-free interleaving of any number of
concurrent `getPage` calls (over any world, so whether each load
succeeds or fails), (a) at most one load operation is ever started per
page — concurrent `getPage(n)` calls for an unloaded `n` therefore
await the one shared operation — and (b) the in-flight load table entry
for a page is removed only after that page's destination-scan side
effect has completed (every `clearLoading` event is preceded by the
page's `scanDone` event; on a failed load the entry is never removed,
which also satisfies "removed only after"). -/
theorem c2_shared_load_cleared_after_scan (w : World) (m : Manifest)
    (reqs : List Int) (acts : List BAct) (hnd : noDestroy acts) :
    (∀ n : Int, loadCount n (runB w m (initB reqs) acts).events ≤ 1) ∧
    chkSeen [] (runB w m (initB reqs) acts).events = true := by
  have h := invB_run w m (initB reqs) acts (invB_init reqs) hnd
  exact ⟨h.1, h.2.2.2.1⟩

/-- Witness for C2: two concurrent `getPage(1)` tasks driven to
completion on the one-page world. -/
theorem c2_shared_load_cleared_after_scan_witness :
    noDestroy [BAct.task 0, BAct.task 1, BAct.task 2, BAct.task 2, BAct.task 2,
      BAct.task 0, BAct.task 1, BAct.task 0, BAct.task 1] ∧
    (loadCount 1 (runB worldThree manifestOne (initB [1, 1])
        [BAct.task 0, BAct.task 1, BAct.task 2, BAct.task 2, BAct.task 2,
          BAct.task 0, BAct.task 1, BAct.task 0, BAct.task 1]).events ≤ 1 ∧
      chkSeen [] (runB worldThree manifestOne (initB [1, 1])
        [BAct.task 0, BAct.task 1, BAct.task 2, BAct.task 2, BAct.task 2,
          BAct.task 0, BAct.task 1, BAct.task 0, BAct.task 1]).events = true) :=
  ⟨by decide,
   ⟨(c2_shared_load_cleared_after_scan worldThree manifestOne [1, 1] _ (by decide)).1 1,
    (c2_shared_load_cleared_after_scan worldThree manifestOne [1, 1] _ (by decide)).2⟩⟩

/-- C5: repeated `getPage(n)` calls return an identity-stable handle —
a successful `getPage(n)` caches the returned page and every later
`getPage(n)` returns exactly that cached page with no further fetch —
and under every destroy-free interleaving of concurrent `getPage`
calls at most one fetch of page `n`'s file is ever started. -/
theorem c5_identity_stable_single_fetch :
    (∀ (w : World) (m : Manifest) (n : Int) (s : AState) (pg : Page),
      (getPage w m n s).res = .ok pg →
        getPage w m n (getPage w m n s).st = ⟨.ok pg, (getPage w m n s).st, []⟩) ∧
    (∀ (w : World) (m : Manifest) (reqs : List Int) (acts : List BAct),
      noDestroy acts →
        ∀ n : Int, loadCount n (runB w m (initB reqs) acts).events ≤ 1) := by
  constructor
  · exact getPage_repeat_stable
  · intro w m reqs acts hnd n
    exact (invB_run w m (initB reqs) acts (invB_init reqs) hnd).1 n

/-- Witness for C5: a loaded page 1 is returned identically on a repeat
call, and the two-concurrent-calls schedule fetches page 1 once. -/
theorem c5_identity_stable_single_fetch_witness :
    ((getPage worldThree manifestThree 1 (emptyState _)).res = .ok docPlain.page1 ∧
      getPage worldThree manifestThree 1 stateAfterPage1 =
        ⟨.ok docPlain.page1, stateAfterPage1, []⟩) ∧
    (noDestroy [BAct.task 0, BAct.task 1, BAct.task 2, BAct.task 2, BAct.task 2] ∧
      loadCount 1 (runB worldThree manifestOne (initB [1, 1])
        [BAct.task 0, BAct.task 1, BAct.task 2, BAct.task 2, BAct.task 2]).events ≤ 1) :=
  ⟨⟨rfl, c5_identity_stable_single_fetch.1 worldThree manifestThree 1 (emptyState _)
      docPlain.page1 rfl⟩,
   ⟨by decide,
    c5_identity_stable_single_fetch.2 worldThree manifestOne [1, 1] _ (by decide) 1⟩⟩

/-! ### Claim C3: teardown -/

/-- Counterexample to C3 as stated: start `getPage(1)` (the fetch is in
flight), call `destroy()` (all caches are now empty), then let the
in-flight load operation resolve — its continuation repopulates the
page-document cache (and marks the page scanned) after the destroy.
The adapter has no destroyed/cancelled flag, so "a page load that
resolves after destroy() does not repopulate any cache" is false. -/
theorem c3_counterexample :
    (runB worldThree manifestOne (initB [1])
        [BAct.task 0, BAct.destroy]).st.pageDocCache = [] ∧
    (runB worldThree manifestOne (initB [1])
        [BAct.task 0, BAct.destroy, BAct.task 1]).st.pageDocCache = [(1, docPlain)] ∧
    (runB worldThree manifestOne (initB [1])
        [BAct.task 0, BAct.destroy, BAct.task 1]).st.scannedDestPages = [1] :=
  ⟨rfl, rfl, rfl⟩

/-- C3 (amended): `cleanup()`/`destroy()` releases every cached
page-document (one release event per cache entry), clears the
page-proxy, page-document, reference, destination and scanned-pages
containers — but not the in-flight load table nor the optional-content
config cache — and is idempotent (a second call clears nothing further
and releases nothing); it is a total synchronous operation, so calling
it while a load is in flight cannot raise.  A load that resolves after
`destroy()` does, however, repopulate the caches
(`c3_counterexample`). -/
theorem c3_destroy_clears_idempotent :
    ∀ (π : Type) (s : DocState π),
      (destroy s).1.pageProxyCache = [] ∧
      (destroy s).1.pageDocCache = [] ∧
      (destroy s).1.refToPageMap = [] ∧
      (destroy s).1.namedDestinations = [] ∧
      (destroy s).1.scannedDestPages = [] ∧
      (destroy s).1.pageDocLoading = s.pageDocLoading ∧
      (destroy s).1.optionalContentConfigCache = s.optionalContentConfigCache ∧
      (destroy s).2 = s.pageDocCache.map (fun kv => Event.release kv.2) ∧
      destroy (destroy s).1 = ((destroy s).1, []) :=
  fun _ _ => ⟨rfl, rfl, rfl, rfl, rfl, rfl, rfl, rfl, rfl⟩

/-! ### Claim C1: `getPageIndex` -/

/-- Counterexample to C1 as stated: the reference `(2,0)` is page 2's
own page reference in `worldOwn`, no page was previously loaded, and no
named destination targets it; the scan performed by `getPageIndex` only
registers destination-target references (never a page's own reference),
so it loads every page, finds nothing, and returns `0` instead of
`2 - 1 = 1`. -/
theorem c1_counterexample :
    worldOwn.fetch urlB = some docOwn2 ∧
    docOwn2.page1.ref = some ⟨2, 0⟩ ∧
    (getPageIndex worldOwn manifestTwo (some ⟨2, 0⟩) (emptyState _)).res = .ok 0 ∧
    (getPageIndex worldOwn manifestTwo (some ⟨2, 0⟩) (emptyState _)).ev =
      [Event.load 1 urlA, Event.scan 1, Event.load 2 urlB, Event.scan 2] ∧
    (0 : Int) ≠ 2 - 1 :=
  ⟨rfl, rfl, rfl, rfl, by decide⟩

/-! ### Fresh-load composite equations -/

/-- A fresh `loadDocumentForPage` (nothing cached, nothing in flight,
page unscanned, fetch succeeds): the document is cached, the page is
marked scanned, its destinations are folded in, and the in-flight entry
is gone; exactly one fetch and one scan happen, in that order. -/
theorem load_fresh_full (w : World) (p : Int) (u : String) (s : AState) (d : PageDoc)
    (hdc : mapLookup s.pageDocCache p = none)
    (hdl : mapLookup s.pageDocLoading p = none)
    (hsc : s.scannedDestPages.contains p = false)
    (hf : w.fetch u = some d) :
    loadDocumentForPage w p u s =
      ⟨.ok d,
       { scanCore p d
          { s with
              pageDocCache := mapSet s.pageDocCache p d
              scannedDestPages := setAdd s.scannedDestPages p } with
          pageDocLoading := mapDelete s.pageDocLoading p },
       [Event.load p u, Event.scan p]⟩ := by
  rw [load_fetchOk w p u s d hdc hdl hf]
  rw [ensureWithDoc_fresh p d
    ({ s with pageDocCache := mapSet s.pageDocCache p d } : AState) hsc]
  dsimp only
  rw [scanCore_pageDocLoading]

/-- A fresh `ensureDestinationsForPage` (no document given): the page
is marked scanned before its load, the load fetches and caches the
document (its nested scan attempt is skipped because the page is
already marked), and the outer call folds the destinations in. -/
theorem ensure_fresh_full (w : World) (p : Int) (u : String) (s : AState) (d : PageDoc)
    (hdc : mapLookup s.pageDocCache p = none)
    (hdl : mapLookup s.pageDocLoading p = none)
    (hsc : s.scannedDestPages.contains p = false)
    (hf : w.fetch u = some d) :
    ensureDestinationsForPage w p u s =
      ⟨.ok (),
       scanCore p d
         { s with
             pageDocCache := mapSet s.pageDocCache p d
             pageDocLoading := mapDelete s.pageDocLoading p
             scannedDestPages := setAdd s.scannedDestPages p },
       [Event.load p u, Event.scan p]⟩ := by
  have hdc1 : mapLookup
      ({ s with scannedDestPages := setAdd s.scannedDestPages p } : AState).pageDocCache p =
      none := hdc
  have hdl1 : mapLookup
      ({ s with scannedDestPages := setAdd s.scannedDestPages p } : AState).pageDocLoading p =
      none := hdl
  have hload := load_fetchOk w p u
    ({ s with scannedDestPages := setAdd s.scannedDestPages p } : AState) d hdc1 hdl1 hf
  rw [ensureWithDoc_scanned p d
    ({ s with
        pageDocCache := mapSet s.pageDocCache p d
        scannedDestPages := setAdd s.scannedDestPages p } : AState)
    (setAdd_contains_self s.scannedDestPages p)] at hload
  rw [ensure_fresh_ok w p u s d _ _ hsc hload]
  rfl

/-! ### The `getPageIndex` scan: claim C1 (amended) -/

theorem scanCore_map_nokey {π : Type} (p : Int) (d : PageDoc) (s : DocState π) (k : RefKey)
    (h : ∀ x ∈ d.dests.getD [], destFirstKey x.2 ≠ some k) :
    mapLookup (scanCore p d s).refToPageMap k = mapLookup s.refToPageMap k := by
  unfold scanCore
  by_cases hfl : d.destsFail
  · simp [hfl]
  · cases hd : d.dests with
    | none => simp [hfl]
    | some l =>
      simp only [hfl, Bool.false_eq_true, if_neg, not_false_iff]
      apply applyDests_map_nokey
      intro nm dv hmem
      exact h (nm, dv) (by simpa [hd] using hmem)

theorem getPageIndexLoop_not_found (w : World) (key : RefKey) :
    ∀ (pages : List ManifestPage) (s : AState),
      ((pages.map (fun e => e.n)).Nodup) →
      (∀ e ∈ pages, mapLookup s.pageDocCache e.n = none ∧
        mapLookup s.pageDocLoading e.n = none ∧
        s.scannedDestPages.contains e.n = false) →
      mapLookup s.refToPageMap key = none →
      (∀ e ∈ pages, fetchAvoidsKey w e.pdfUrl key) →
      (getPageIndexLoop w key pages s).res = .ok 0 ∧
      (getPageIndexLoop w key pages s).ev =
        pages.flatMap (fun e => [Event.load e.n e.pdfUrl, Event.scan e.n]) := by
  intro pages
  induction pages with
  | nil =>
    intro s _ _ _ _
    exact ⟨rfl, rfl⟩
  | cons e rest ih =>
    intro s hnodup hfresh hkey havoid
    have he := hfresh e (List.mem_cons_self _ _)
    have hav := havoid e (List.mem_cons_self _ _)
    unfold fetchAvoidsKey at hav
    cases hf : w.fetch e.pdfUrl with
    | none => rw [hf] at hav; cases hav
    | some d =>
      rw [hf] at hav
      have hload := load_fresh_full w e.n e.pdfUrl s d he.1 he.2.1 he.2.2 hf
      unfold getPageIndexLoop
      rw [hload]
      dsimp only
      have hkey2 : mapLookup
          ({ scanCore e.n d
              { s with
                  pageDocCache := mapSet s.pageDocCache e.n d
                  scannedDestPages := setAdd s.scannedDestPages e.n } with
              pageDocLoading := mapDelete s.pageDocLoading e.n } : AState).refToPageMap key =
          none := by
        simp only
        rw [scanCore_map_nokey e.n d _ key hav]
        exact hkey
      rw [hkey2]
      dsimp only
      have hnodup2 : ((rest.map (fun e2 => e2.n)).Nodup) := (List.nodup_cons.1 hnodup).2
      have hne : ∀ e2 ∈ rest, e2.n ≠ e.n := by
        intro e2 hmem heq
        apply (List.nodup_cons.1 hnodup).1
        have hin : e2.n ∈ rest.map (fun x => x.n) := List.mem_map_of_mem (fun x => x.n) hmem
        rw [heq] at hin
        exact hin
      have hfresh2 : ∀ e2 ∈ rest, mapLookup
          ({ scanCore e.n d
              { s with
                  pageDocCache := mapSet s.pageDocCache e.n d
                  scannedDestPages := setAdd s.scannedDestPages e.n } with
              pageDocLoading := mapDelete s.pageDocLoading e.n } : AState).pageDocCache e2.n =
            none ∧
          mapLookup
          ({ scanCore e.n d
              { s with
                  pageDocCache := mapSet s.pageDocCache e.n d
                  scannedDestPages := setAdd s.scannedDestPages e.n } with
              pageDocLoading := mapDelete s.pageDocLoading e.n } : AState).pageDocLoading e2.n =
            none ∧
          ({ scanCore e.n d
              { s with
                  pageDocCache := mapSet s.pageDocCache e.n d
                  scannedDestPages := setAdd s.scannedDestPages e.n } with
              pageDocLoading := mapDelete s.pageDocLoading e.n } : AState).scannedDestPages.contains
            e2.n = false := by
        intro e2 hmem
        have he2 := hfresh e2 (List.mem_cons_of_mem _ hmem)
        have hne2 := hne e2 hmem
        refine ⟨?_, ?_, ?_⟩
        · simp only [scanCore_pageDocCache]
          rw [mapLookup_set_ne _ _ _ _ hne2]
          exact he2.1
        · simp only
          rw [mapLookup_delete_ne _ _ _ hne2]
          exact he2.2.1
        · simp only [scanCore_scannedDestPages]
          rw [setAdd_contains_ne _ _ _ hne2]
          exact he2.2.2
      have havoid2 : ∀ e2 ∈ rest, fetchAvoidsKey w e2.pdfUrl key := by
        intro e2 hmem
        exact havoid e2 (List.mem_cons_of_mem _ hmem)
      have hres := ih _ hnodup2 hfresh2 hkey2 havoid2
      refine ⟨hres.1, ?_⟩
      rw [hres.2]
      simp

/-- C1 (amended): `getPageIndex(ref)` returns `k - 1` whenever the
reference index maps `ref` to `k` — in particular for page `k`'s own
reference after `getPage(k)` — without any load; on an index miss it
loads the pages sequentially in manifest order (the event trace is
exactly one load and one scan per page), but the scan registers only
destination-target references, never a page's own reference, so for a
reference that no page's destinations target (and that is not already
indexed) it scans every page and returns `0`. -/
theorem c1_index_hit_or_scan_default :
    (∀ (w : World) (m : Manifest) (r : RefProxy) (k : Int) (s : AState),
      mapLookup s.refToPageMap (r.num, r.gen) = some k →
        getPageIndex w m (some r) s = ⟨.ok (k - 1), s, []⟩) ∧
    (∀ (w : World) (m : Manifest) (r : RefProxy) (s : AState),
      ((m.pages.map (fun e => e.n)).Nodup) →
      (∀ e ∈ m.pages, mapLookup s.pageDocCache e.n = none ∧
        mapLookup s.pageDocLoading e.n = none ∧
        s.scannedDestPages.contains e.n = false) →
      mapLookup s.refToPageMap (r.num, r.gen) = none →
      (∀ e ∈ m.pages, fetchAvoidsKey w e.pdfUrl (r.num, r.gen)) →
        (getPageIndex w m (some r) s).res = .ok 0 ∧
        (getPageIndex w m (some r) s).ev =
          m.pages.flatMap (fun e => [Event.load e.n e.pdfUrl, Event.scan e.n])) := by
  constructor
  · intro w m r k s hk
    unfold getPageIndex
    simp only [refKey]
    rw [hk]
  · intro w m r s hnodup hfresh hkey havoid
    have hloop := getPageIndexLoop_not_found w (r.num, r.gen) m.pages s hnodup hfresh
      hkey havoid
    unfold getPageIndex
    simp only [refKey]
    rw [hkey]
    exact hloop

/-- Witness for C1 (amended): part (a) on the state where page 1 of the
three-page world is loaded (its reference `(1,0)` is indexed as page 1,
so the index is `0`); part (b) on a fresh adapter over `worldOwn` with
the reference `(9,9)` that no page's destinations target. -/
theorem c1_index_hit_or_scan_default_witness :
    (getPageIndex worldThree manifestThree (some ⟨1, 0⟩) stateAfterPage1 =
      ⟨.ok 0, stateAfterPage1, []⟩) ∧
    ((getPageIndex worldOwn manifestTwo (some ⟨9, 9⟩) (emptyState _)).res = .ok 0 ∧
      (getPageIndex worldOwn manifestTwo (some ⟨9, 9⟩) (emptyState _)).ev =
        manifestTwo.pages.flatMap (fun e => [Event.load e.n e.pdfUrl, Event.scan e.n])) :=
  ⟨c1_index_hit_or_scan_default.1 worldThree manifestThree ⟨1, 0⟩ 1 stateAfterPage1 rfl,
   c1_index_hit_or_scan_default.2 worldOwn manifestTwo ⟨9, 9⟩ (emptyState _)
     (by decide) (by decide) rfl (by decide)⟩

/-! ### Claim C4: the reference index after `getPage` -/

/-- Counterexample to C4 as stated: in `worldAlias` both split page
files use `(1,0)` for their own page object.  `getPage(2)` indexes
`(1,0) ↦ 2`; resolving the named destination `"x"` scans page 1, whose
destination targets `(1,0)`, overwriting the entry to `(1,0) ↦ 1`; a
subsequent `getPage(2)` resolves from the proxy cache without
re-writing the entry, so after that resolve `cachedPageNumber` of page
2's own reference returns `1`, not `2`. -/
theorem c4_counterexample :
    worldAlias.fetch urlB = some docAlias2 ∧
    docAlias2.page1.ref = some ⟨1, 0⟩ ∧
    cachedPageNumber stateAfterAliasLoad (some ⟨1, 0⟩) = some 2 ∧
    (getPage worldAlias manifestTwo 2 stateAfterAliasDest).res = .ok docAlias2.page1 ∧
    cachedPageNumber (getPage worldAlias manifestTwo 2 stateAfterAliasDest).st
        (some ⟨1, 0⟩) = some 1 ∧
    (1 : Int) ≠ 2 :=
  ⟨rfl, rfl, rfl, rfl, rfl, by decide⟩

/-- Witness for C4 (amended): loading page 1 of the three-page world on
a fresh adapter indexes its reference before resolving. -/
theorem c4_ref_indexed_before_resolve_witness :
    (mapLookup (emptyState (Except LoadErr PageDoc)).pageProxyCache 1 = none ∧
      (getPage worldThree manifestThree 1 (emptyState _)).res = .ok docPlain.page1 ∧
      docPlain.page1.ref = some ⟨1, 0⟩) ∧
    cachedPageNumber (getPage worldThree manifestThree 1 (emptyState _)).st
      (some ⟨1, 0⟩) = some 1 :=
  ⟨⟨rfl, rfl, rfl⟩,
   c4_ref_indexed_before_resolve worldThree manifestThree 1 (emptyState _)
     docPlain.page1 ⟨1, 0⟩ rfl rfl rfl⟩

/-! ### Claim C6: `getDestination` -/

/-- Counterexample to C6 as stated: when a page fetch fails during the
scan, `getDestination` rejects with the load error instead of resolving
`null` — the `await loadDocumentForPage(...)` inside
`ensureDestinationsForPage` sits outside the `try`/`catch`, and
`getDestination`'s loop does not catch either. -/
theorem c6_counterexample :
    (getDestination worldFail manifestOne "x" (emptyState _)).res = .error .loadFailed ∧
    (Except.error LoadErr.loadFailed ≠
      (Except.ok none : Except LoadErr (Option DestVal))) :=
  ⟨rfl, by decide⟩

theorem getDestinationLoop_finds (w : World) (name : String) :
    ∀ (pages : List ManifestPage) (s : AState),
      ((pages.map (fun e => e.n)).Nodup) →
      (∀ e ∈ pages, mapLookup s.pageDocCache e.n = none ∧
        mapLookup s.pageDocLoading e.n = none ∧
        s.scannedDestPages.contains e.n = false) →
      mapLookup s.namedDestinations name = none →
      (∀ e ∈ pages, (w.fetch e.pdfUrl).isSome = true) →
      (∃ e ∈ pages, fetchDefines w e.pdfUrl name ≠ none) →
      ∃ dv, (getDestinationLoop w name pages s).res = .ok (some dv) := by
  intro pages
  induction pages with
  | nil =>
    intro s _ _ _ _ hex
    rcases hex with ⟨e, hmem, _⟩
    cases hmem
  | cons e rest ih =>
    intro s hnodup hfresh habs hsome hex
    have he := hfresh e (List.mem_cons_self _ _)
    have hs := hsome e (List.mem_cons_self _ _)
    cases hf : w.fetch e.pdfUrl with
    | none => rw [hf] at hs; cases hs
    | some d =>
      have hens := ensure_fresh_full w e.n e.pdfUrl s d he.1 he.2.1 he.2.2 hf
      unfold getDestinationLoop
      rw [hens]
      dsimp only
      have habs1 : mapLookup
          ({ s with
              pageDocCache := mapSet s.pageDocCache e.n d
              pageDocLoading := mapDelete s.pageDocLoading e.n
              scannedDestPages := setAdd s.scannedDestPages e.n } : AState).namedDestinations
            name = none := habs
      cases hdef : docDefines d name with
      | some dv =>
        rw [scanCore_named_defines e.n d _ name dv habs1 hdef]
        exact ⟨dv, rfl⟩
      | none =>
        rw [scanCore_named_not_defines e.n d _ name habs1 hdef]
        dsimp only
        have hnodup2 : ((rest.map (fun e2 => e2.n)).Nodup) := (List.nodup_cons.1 hnodup).2
        have hne : ∀ e2 ∈ rest, e2.n ≠ e.n := by
          intro e2 hmem heq
          apply (List.nodup_cons.1 hnodup).1
          have hin : e2.n ∈ rest.map (fun x => x.n) :=
            List.mem_map_of_mem (fun x => x.n) hmem
          rw [heq] at hin
          exact hin
        have hfresh2 : ∀ e2 ∈ rest, mapLookup
            (scanCore e.n d
              { s with
                  pageDocCache := mapSet s.pageDocCache e.n d
                  pageDocLoading := mapDelete s.pageDocLoading e.n
                  scannedDestPages := setAdd s.scannedDestPages e.n }).pageDocCache e2.n =
              none ∧
            mapLookup
            (scanCore e.n d
              { s with
                  pageDocCache := mapSet s.pageDocCache e.n d
                  pageDocLoading := mapDelete s.pageDocLoading e.n
                  scannedDestPages := setAdd s.scannedDestPages e.n }).pageDocLoading e2.n =
              none ∧
            (scanCore e.n d
              { s with
                  pageDocCache := mapSet s.pageDocCache e.n d
                  pageDocLoading := mapDelete s.pageDocLoading e.n
                  scannedDestPages := setAdd s.scannedDestPages e.n }).scannedDestPages.contains
              e2.n = false := by
          intro e2 hmem
          have he2 := hfresh e2 (List.mem_cons_of_mem _ hmem)
          have hne2 := hne e2 hmem
          refine ⟨?_, ?_, ?_⟩
          · rw [scanCore_pageDocCache]
            simp only
            rw [mapLookup_set_ne _ _ _ _ hne2]
            exact he2.1
          · rw [scanCore_pageDocLoading]
            simp only
            rw [mapLookup_delete_ne _ _ _ hne2]
            exact he2.2.1
          · rw [scanCore_scannedDestPages]
            simp only
            rw [setAdd_contains_ne _ _ _ hne2]
            exact he2.2.2
        have habs2 : mapLookup
            (scanCore e.n d
              { s with
                  pageDocCache := mapSet s.pageDocCache e.n d
                  pageDocLoading := mapDelete s.pageDocLoading e.n
                  scannedDestPages := setAdd s.scannedDestPages e.n }).namedDestinations
              name = none := scanCore_named_not_defines e.n d _ name habs1 hdef
        have hsome2 : ∀ e2 ∈ rest, (w.fetch e2.pdfUrl).isSome = true := by
          intro e2 hmem
          exact hsome e2 (List.mem_cons_of_mem _ hmem)
        have hex2 : ∃ e2 ∈ rest, fetchDefines w e2.pdfUrl name ≠ none := by
          rcases hex with ⟨e2, hmem, hdef2⟩
          rcases List.mem_cons.1 hmem with heq | hmem2
          · subst heq
            unfold fetchDefines at hdef2
            rw [hf] at hdef2
            exact absurd hdef hdef2
          · exact ⟨e2, hmem2, hdef2⟩
        rcases ih _ hnodup2 hfresh2 habs2 hsome2 hex2 with ⟨dv, hdv⟩
        exact ⟨dv, by simpa using hdv⟩

theorem getDestinationLoop_absent (w : World) (name : String) :
    ∀ (pages : List ManifestPage) (s : AState),
      ((pages.map (fun e => e.n)).Nodup) →
      (∀ e ∈ pages, mapLookup s.pageDocCache e.n = none ∧
        mapLookup s.pageDocLoading e.n = none ∧
        s.scannedDestPages.contains e.n = false) →
      mapLookup s.namedDestinations name = none →
      (∀ e ∈ pages, (w.fetch e.pdfUrl).isSome = true) →
      (∀ e ∈ pages, fetchDefines w e.pdfUrl name = none) →
      (getDestinationLoop w name pages s).res = .ok none := by
  intro pages
  induction pages with
  | nil =>
    intro s _ _ _ _ _
    rfl
  | cons e rest ih =>
    intro s hnodup hfresh habs hsome hnone
    have he := hfresh e (List.mem_cons_self _ _)
    have hs := hsome e (List.mem_cons_self _ _)
    cases hf : w.fetch e.pdfUrl with
    | none => rw [hf] at hs; cases hs
    | some d =>
      have hdef : docDefines d name = none := by
        have hd := hnone e (List.mem_cons_self _ _)
        unfold fetchDefines at hd
        rw [hf] at hd
        exact hd
      have hens := ensure_fresh_full w e.n e.pdfUrl s d he.1 he.2.1 he.2.2 hf
      unfold getDestinationLoop
      rw [hens]
      dsimp only
      have habs1 : mapLookup
          ({ s with
              pageDocCache := mapSet s.pageDocCache e.n d
              pageDocLoading := mapDelete s.pageDocLoading e.n
              scannedDestPages := setAdd s.scannedDestPages e.n } : AState).namedDestinations
            name = none := habs
      rw [scanCore_named_not_defines e.n d _ name habs1 hdef]
      dsimp only
      have hnodup2 : ((rest.map (fun e2 => e2.n)).Nodup) := (List.nodup_cons.1 hnodup).2
      have hne : ∀ e2 ∈ rest, e2.n ≠ e.n := by
        intro e2 hmem heq
        apply (List.nodup_cons.1 hnodup).1
        have hin : e2.n ∈ rest.map (fun x => x.n) :=
          List.mem_map_of_mem (fun x => x.n) hmem
        rw [heq] at hin
        exact hin
      have hfresh2 : ∀ e2 ∈ rest, mapLookup
          (scanCore e.n d
            { s with
                pageDocCache := mapSet s.pageDocCache e.n d
                pageDocLoading := mapDelete s.pageDocLoading e.n
                scannedDestPages := setAdd s.scannedDestPages e.n }).pageDocCache e2.n =
            none ∧
          mapLookup
          (scanCore e.n d
            { s with
                pageDocCache := mapSet s.pageDocCache e.n d
                pageDocLoading := mapDelete s.pageDocLoading e.n
                scannedDestPages := setAdd s.scannedDestPages e.n }).pageDocLoading e2.n =
            none ∧
          (scanCore e.n d
            { s with
                pageDocCache := mapSet s.pageDocCache e.n d
                pageDocLoading := mapDelete s.pageDocLoading e.n
                scannedDestPages := setAdd s.scannedDestPages e.n }).scannedDestPages.contains
            e2.n = false := by
        intro e2 hmem
        have he2 := hfresh e2 (List.mem_cons_of_mem _ hmem)
        have hne2 := hne e2 hmem
        refine ⟨?_, ?_, ?_⟩
        · rw [scanCore_pageDocCache]
          simp only
          rw [mapLookup_set_ne _ _ _ _ hne2]
          exact he2.1
        · rw [scanCore_pageDocLoading]
          simp only
          rw [mapLookup_delete_ne _ _ _ hne2]
          exact he2.2.1
        · rw [scanCore_scannedDestPages]
          simp only
          rw [setAdd_contains_ne _ _ _ hne2]
          exact he2.2.2
      have habs2 : mapLookup
          (scanCore e.n d
            { s with
                pageDocCache := mapSet s.pageDocCache e.n d
                pageDocLoading := mapDelete s.pageDocLoading e.n
                scannedDestPages := setAdd s.scannedDestPages e.n }).namedDestinations
            name = none := scanCore_named_not_defines e.n d _ name habs1 hdef
      have hsome2 : ∀ e2 ∈ rest, (w.fetch e2.pdfUrl).isSome = true := by
        intro e2 hmem
        exact hsome e2 (List.mem_cons_of_mem _ hmem)
      have hnone2 : ∀ e2 ∈ rest, fetchDefines w e2.pdfUrl name = none := by
        intro e2 hmem
        exact hnone e2 (List.mem_cons_of_mem _ hmem)
      have hres := ih _ hnodup2 hfresh2 habs2 hsome2 hnone2
      simpa using hres

/-- C6 (amended): on an adapter where the relevant pages are untouched
and every page file fetches successfully, `getDestination(name)`
resolves the destination when some page's file defines `name` — even if
that page was never previously loaded — and resolves `null` when no
page defines it; a page-load failure during the scan, however, rejects.
In the three-page scenario where only page 1 is loaded and `"sec"`
lives on page 3, resolving it triggers exactly the additional loads of
pages 2 then 3, in that order, without re-scanning page 1. -/
theorem c6_destination_scan_resolves :
    (∀ (w : World) (m : Manifest) (name : String) (s : AState),
      ((m.pages.map (fun e => e.n)).Nodup) →
      (∀ e ∈ m.pages, mapLookup s.pageDocCache e.n = none ∧
        mapLookup s.pageDocLoading e.n = none ∧
        s.scannedDestPages.contains e.n = false) →
      mapLookup s.namedDestinations name = none →
      (∀ e ∈ m.pages, (w.fetch e.pdfUrl).isSome = true) →
      (∃ e ∈ m.pages, fetchDefines w e.pdfUrl name ≠ none) →
        ∃ dv, (getDestination w m name s).res = .ok (some dv)) ∧
    (∀ (w : World) (m : Manifest) (name : String) (s : AState),
      ((m.pages.map (fun e => e.n)).Nodup) →
      (∀ e ∈ m.pages, mapLookup s.pageDocCache e.n = none ∧
        mapLookup s.pageDocLoading e.n = none ∧
        s.scannedDestPages.contains e.n = false) →
      mapLookup s.namedDestinations name = none →
      (∀ e ∈ m.pages, (w.fetch e.pdfUrl).isSome = true) →
      (∀ e ∈ m.pages, fetchDefines w e.pdfUrl name = none) →
        (getDestination w m name s).res = .ok none) ∧
    ((getDestination worldThree manifestThree "sec" stateAfterPage1).res =
        .ok (some destX) ∧
      (getDestination worldThree manifestThree "sec" stateAfterPage1).ev =
        [Event.load 2 urlB, Event.scan 2, Event.load 3 urlC, Event.scan 3]) := by
  refine ⟨?_, ?_, rfl, rfl⟩
  · intro w m name s hnodup hfresh habs hsome hex
    unfold getDestination
    rw [habs]
    exact getDestinationLoop_finds w name m.pages s hnodup hfresh habs hsome hex
  · intro w m name s hnodup hfresh habs hsome hnone
    unfold getDestination
    rw [habs]
    exact getDestinationLoop_absent w name m.pages s hnodup hfresh habs hsome hnone

/-- Witness for C6 (amended): parts (i) and (ii) at fresh adapters over
the three-page world (the name `"sec"` is defined on page 3 only; the
name `"zz"` is defined nowhere). -/
theorem c6_destination_scan_resolves_witness :
    (∃ dv, (getDestination worldThree manifestThree "sec" (emptyState _)).res =
      .ok (some dv)) ∧
    (getDestination worldThree manifestThree "zz" (emptyState _)).res = .ok none :=
  ⟨c6_destination_scan_resolves.1 worldThree manifestThree "sec" (emptyState _)
     (by decide) (by decide) rfl (by decide) ⟨⟨3, 612, 792, urlC⟩, by decide, by decide⟩,
   c6_destination_scan_resolves.2.1 worldThree manifestThree "zz" (emptyState _)
     (by decide) (by decide) rfl (by decide) (by decide)⟩

end LazyPDF
